import Mathlib

/-!
Shallow embedding of the flow-like execution engine
(`packages/core/src/flow/execution/internal_node.rs`) and of the pin data
model (`packages/core/src/flow/pin.rs`), together with theorems that settle
the specification claims about the engine.

Modelling conventions:
* `Arc<InternalNode>` / `Arc<Mutex<InternalPin>>` identities (the `ptr_key`
  values used by the engine's identity-keyed sets) are modelled as indices
  into `Board.nodes` / `Board.pins`.
* `Weak` pin references are plain indices; an index with no entry in
  `Board.pins` models a weak reference whose `upgrade()` fails.
* Runtime state (pin value slots, node states, the trace) lives in `World`;
  the recursion guard (`Option<AHashSet<String>>`) is threaded explicitly.
* Loops over explicit work stacks in the source are fuel-indexed recursions.
-/

namespace FlowLike

/-- Values (`flow_like_types::Value`) restricted to the shapes the engine inspects. -/
inductive Val where
  | null
  | vbool (b : Bool)
  | vint (n : Int)
  | vstr (s : String)
deriving DecidableEq, Repr

/-- Pin direction (`flow::pin::PinType`). -/
inductive PinType where
  | input
  | output
deriving DecidableEq, Repr

/-- Data kinds (`flow::variable::VariableType`), keeping the kinds the engine branches on. -/
inductive VariableType where
  | execution
  | boolean
  | integer
  | float
  | stringV
  | structV
deriving DecidableEq, Repr

/-- Node states (`flow::node::NodeState`, `idle → running → success | error`). -/
inductive NodeState where
  | idle
  | running
  | success
  | error
deriving DecidableEq, Repr

/-- Log levels (`flow::execution::LogLevel`) the engine emits. -/
inductive LogLevel where
  | debug
  | info
  | warn
  | error
deriving DecidableEq, Repr

/-- One pin (`InternalPin` together with its inner `Pin` metadata).
`depends_on` / `connected_to` hold pin indices (weak edges); `node` is the
weak back-reference to the owning node (`none` models a relay pin). -/
structure PinData where
  name : String
  pin_type : PinType
  data_type : VariableType
  depends_on : List Nat
  connected_to : List Nat
  default_value : Option Val
  node : Option Nat
deriving DecidableEq, Repr

/-- One node (`InternalNode` together with its inner `Node`). `pins` lists the
indices of the pins the node owns. The attached `NodeLogic` is abstract in the
source; its `run` is modelled as a fixed list of pin writes followed by a
fixed result. -/
structure NodeData where
  id : String
  friendly_name : String
  pins : List Nat
  logicWrites : List (Nat × Val)
  logicResult : Except String Unit
deriving Repr

/-- A resolved board: the pin and node stores the engine operates on. -/
structure Board where
  pins : List PinData
  nodes : List NodeData
deriving Repr

/-- Upgrade a weak pin reference: `none` models a deleted pin. -/
def Board.pin? (b : Board) (i : Nat) : Option PinData := b.pins[i]?

def defaultNodeData : NodeData :=
  { id := "", friendly_name := "", pins := [], logicWrites := [], logicResult := Except.ok () }

/-- Node lookup by identity (total; engine identities always resolve). -/
def Board.nodeD (b : Board) (n : Nat) : NodeData := (b.nodes[n]?).getD defaultNodeData

/-- Purity (`InternalNode::is_pure`): a node is pure iff none of its pins has data
type `Execution`. -/
def Board.is_pure (b : Board) (n : Nat) : Bool :=
  ((b.nodeD n).pins.find? (fun i =>
    match b.pin? i with
    | some p => p.data_type == VariableType.execution
    | none => false)).isNone

/-- Trace events. `log` mirrors `ExecutionContext::log_message`; the other
constructors instrument the engine's control points and record the recursion
guard passed at that point. -/
inductive Event where
  | log (msg : String) (lvl : LogLevel)
  | logicStart (node : Nat) (guard : Option (List String))
  | logicRun (node : Nat)
  | depsStart (node : Nat) (guard : Option (List String))
  | succStart (node : Nat) (guard : Option (List String))
  | handleErrorStart (node : Nat) (guard : Option (List String))
  | handlerStart (node : Nat) (guard : Option (List String))
  | errSuccStart (node : Nat) (guard : Option (List String))
deriving DecidableEq, Repr

/-- Runtime state: pin value slots, node states and the flattened trace. -/
structure World where
  pinVals : List (Option Val)
  states : List NodeState
  trace : List Event
deriving Repr

def World.setState (w : World) (n : Nat) (s : NodeState) : World :=
  { w with states := w.states.set n s }

def World.setPin (w : World) (p : Nat) (v : Val) : World :=
  { w with pinVals := w.pinVals.set p (some v) }

def World.emit (w : World) (e : Event) : World :=
  { w with trace := w.trace ++ [e] }

def World.stateOf (w : World) (n : Nat) : NodeState :=
  (w.states[n]?).getD NodeState.idle

def World.pinVal (w : World) (p : Nat) : Option Val :=
  ((w.pinVals[p]?).getD none)

/-- Errors (`InternalNodeError`) exactly as declared in the source: three variants,
each carrying a node id string. -/
inductive InternalNodeError where
  | DependencyFailed (id : String)
  | ExecutionFailed (id : String)
  | PinNotReady (id : String)
deriving DecidableEq, Repr

/-- Rendering of an `InternalNodeError`, as `format!` on the debug form. -/
def errString : InternalNodeError → String
  | InternalNodeError.DependencyFailed s => "DependencyFailed(\"" ++ s ++ "\")"
  | InternalNodeError.ExecutionFailed s => "ExecutionFailed(\"" ++ s ++ "\")"
  | InternalNodeError.PinNotReady s => "PinNotReady(\"" ++ s ++ "\")"

/-- The recursion guard: `Option<AHashSet<String>>`, sets as lists. -/
abbrev Guard := Option (List String)

/-- Contents of a guard (`None` behaves as the empty set). -/
def gval (g : Guard) : List String := g.getD []

/-- Modelled from the spec: `evaluate_pin_value` lives in `flow::utils`,
which is not among the provided sources. Per spec sections 4.1 and 7 it
yields the pin's current value when one is set, the deserialized default
otherwise, and a `PinNotReady`-style error when neither exists. -/
def evaluate_pin_value (b : Board) (w : World) (p : Nat) : Except String Val :=
  match w.pinVal p with
  | some v => Except.ok v
  | none =>
    match b.pin? p with
    | some pd =>
      match pd.default_value with
      | some v => Except.ok v
      | none => Except.error "PinNotReady"
    | none => Except.error "Failed to lock Pin"

/-- Outcome of scanning one input pin's `depends_on` list in `is_ready`. -/
inductive ReadyStep where
  | fail
  | cont (execValid : Bool)
deriving DecidableEq, Repr

/-- The per-pin `depends_on` loop of `InternalNode::is_ready`: a missing
upstream errors (`ok_or`), a valueless upstream fails a non-exec pin
immediately, and `execValid` records whether any upstream carries a value. -/
def is_ready_deps (b : Board) (w : World) (isExec : Bool) :
    List Nat → Bool → Except String ReadyStep
  | [], execValid => Except.ok (ReadyStep.cont execValid)
  | d :: rest, execValid =>
    match b.pin? d with
    | none => Except.error "Failed to lock Pin"
    | some _ =>
      if (w.pinVal d).isNone && !isExec then Except.ok ReadyStep.fail
      else is_ready_deps b w isExec rest (execValid || (w.pinVal d).isSome)

/-- The pin loop of `InternalNode::is_ready`. -/
def is_ready_pins (b : Board) (w : World) : List Nat → Except String Bool
  | [] => Except.ok true
  | i :: rest =>
    match b.pin? i with
    | none => is_ready_pins b w rest
    | some pd =>
      if pd.pin_type != PinType.input then is_ready_pins b w rest
      else if pd.depends_on.isEmpty && pd.default_value.isNone then Except.ok false
      else
        let isExec := pd.data_type == VariableType.execution
        match is_ready_deps b w isExec pd.depends_on false with
        | Except.error e => Except.error e
        | Except.ok ReadyStep.fail => Except.ok false
        | Except.ok (ReadyStep.cont execValid) =>
          if isExec && !execValid then Except.ok false
          else is_ready_pins b w rest

/-- Readiness (`InternalNode::is_ready`). -/
def is_ready (b : Board) (w : World) (n : Nat) : Except String Bool :=
  is_ready_pins b w (b.nodeD n).pins

/-- The spec's wording of pin satisfiability (section 3 invariants / claim C5):
an execution input needs some upstream pin with a *truthy* token; a
non-execution input needs a concrete value on *every* referenced upstream. -/
def spec_pin_satisfiable (w : World) (pd : PinData) : Bool :=
  (!pd.depends_on.isEmpty || pd.default_value.isSome) &&
  (if pd.data_type == VariableType.execution then
    pd.depends_on.any (fun d => w.pinVal d == some (Val.vbool true))
  else
    pd.depends_on.all (fun d => (w.pinVal d).isSome))

/-- The spec's wording of `is_ready` (claim C5): true iff every input pin is
satisfiable. -/
def spec_is_ready (b : Board) (w : World) (n : Nat) : Bool :=
  (b.nodeD n).pins.all (fun i =>
    match b.pin? i with
    | some pd => if pd.pin_type == PinType.input then spec_pin_satisfiable w pd else true
    | none => true)

/-- The amended satisfiability condition matching the code: an execution
input needs some upstream pin carrying *any* value (truthy or not). -/
def amended_pin_satisfiable (w : World) (pd : PinData) : Bool :=
  (!pd.depends_on.isEmpty || pd.default_value.isSome) &&
  (if pd.data_type == VariableType.execution then
    pd.depends_on.any (fun d => (w.pinVal d).isSome)
  else
    pd.depends_on.all (fun d => (w.pinVal d).isSome))

/-- The amended readiness predicate for claim C5. -/
def amended_is_ready (b : Board) (w : World) (n : Nat) : Bool :=
  (b.nodeD n).pins.all (fun i =>
    match b.pin? i with
    | some pd => if pd.pin_type == PinType.input then amended_pin_satisfiable w pd else true
    | none => true)

/-- The inner worklist of `pure_parents_for_memo`: pops weak pin references,
*skips* references whose upgrade fails (`let Some .. else continue`), keeps a
pointer-keyed visited set, relays through standalone pins, and collects the
owning node when it is pure. The stack head is the top (Rust pops the `Vec`
tail, so pushed lists are reversed). -/
def pure_walk (b : Board) : Nat → List Nat → List Nat → List Nat → List Nat
  | 0, _, _, acc => acc
  | _ + 1, [], _, acc => acc
  | fuel + 1, d :: rest, visited, acc =>
    match b.pin? d with
    | none => pure_walk b fuel rest visited acc
    | some pd =>
      if d ∈ visited then pure_walk b fuel rest visited acc
      else
        match pd.node with
        | some parent =>
          if b.is_pure parent then pure_walk b fuel rest (d :: visited) (acc ++ [parent])
          else pure_walk b fuel rest (d :: visited) acc
        | none => pure_walk b fuel (pd.depends_on.reverse ++ rest) (d :: visited) acc

/-- The pin loop of `pure_parents_for_memo`: only input, non-exec pins seed a
walk; the per-pin visited set is fresh for every pin. -/
def pure_parents_pins (b : Board) (fuel : Nat) : List Nat → List Nat
  | [] => []
  | i :: rest =>
    match b.pin? i with
    | none => pure_parents_pins b fuel rest
    | some pd =>
      if pd.pin_type == PinType.input && pd.data_type != VariableType.execution then
        pure_walk b fuel pd.depends_on.reverse [] [] ++ pure_parents_pins b fuel rest
      else pure_parents_pins b fuel rest

/-- De-duplication (`result.retain` with a `seen` set): keep first occurrences. -/
def dedup_keep_first (seen : List Nat) : List Nat → List Nat
  | [] => []
  | x :: xs =>
    if x ∈ seen then dedup_keep_first seen xs
    else x :: dedup_keep_first (x :: seen) xs

/-- Resolver `pure_parents_for_memo` (the memo map is a cache keyed by node identity
and never changes results, so it is elided): collect pure parents reachable
through non-exec input pins, then de-duplicate by identity when the result
has more than one element. -/
def pure_parents (b : Board) (fuel : Nat) (n : Nat) : List Nat :=
  let result := pure_parents_pins b fuel (b.nodeD n).pins
  if result.length > 1 then dedup_keep_first [] result else result

/-- The shared worklist of `get_dependencies` / `get_connected` /
`get_error_handled_nodes`: identical to `pure_walk` except that a failed weak
upgrade *errors* (`.upgrade().ok_or(..)?`) instead of being skipped, nodes are
de-duplicated across the whole traversal via `seen`, and no purity filter is
applied. `edges` selects `depends_on` or `connected_to`. Fuel exhaustion is
modelled as an error. -/
def strict_walk (b : Board) (edges : PinData → List Nat) :
    Nat → List Nat → List Nat → List Nat → List Nat → Except String (List Nat × List Nat)
  | 0, stack, _, seen, acc =>
    if stack.isEmpty then Except.ok (acc, seen) else Except.error "fuel exhausted"
  | _ + 1, [], _, seen, acc => Except.ok (acc, seen)
  | fuel + 1, p :: rest, visited, seen, acc =>
    match b.pin? p with
    | none => Except.error "Failed to lock Pin"
    | some pd =>
      if p ∈ visited then strict_walk b edges fuel rest visited seen acc
      else
        match pd.node with
        | some parent =>
          if parent ∈ seen then strict_walk b edges fuel rest (p :: visited) seen acc
          else strict_walk b edges fuel rest (p :: visited) (parent :: seen) (acc ++ [parent])
        | none => strict_walk b edges fuel ((edges pd).reverse ++ rest) (p :: visited) seen acc

/-- The pin loop of `InternalNode::get_dependencies`: every input pin seeds a
strict walk over `depends_on`; `seen` nodes persist across pins, the visited
pin set is reset per pin. -/
def get_dependencies_pins (b : Board) (fuel : Nat) (seen acc : List Nat) :
    List Nat → Except String (List Nat)
  | [] => Except.ok acc
  | i :: rest =>
    match b.pin? i with
    | none => get_dependencies_pins b fuel seen acc rest
    | some pd =>
      if pd.pin_type == PinType.input then
        match strict_walk b (fun q => q.depends_on) fuel pd.depends_on.reverse [] seen acc with
        | Except.error e => Except.error e
        | Except.ok (acc2, seen2) => get_dependencies_pins b fuel seen2 acc2 rest
      else get_dependencies_pins b fuel seen acc rest

/-- Dependencies (`InternalNode::get_dependencies`). -/
def get_dependencies (b : Board) (fuel : Nat) (n : Nat) : Except String (List Nat) :=
  get_dependencies_pins b fuel [] [] (b.nodeD n).pins

/-- The pin loop of `InternalNode::get_connected`: every output pin seeds a
strict walk over `connected_to`. -/
def get_connected_pins (b : Board) (fuel : Nat) (seen acc : List Nat) :
    List Nat → Except String (List Nat)
  | [] => Except.ok acc
  | i :: rest =>
    match b.pin? i with
    | none => get_connected_pins b fuel seen acc rest
    | some pd =>
      if pd.pin_type == PinType.output then
        match strict_walk b (fun q => q.connected_to) fuel pd.connected_to.reverse [] seen acc with
        | Except.error e => Except.error e
        | Except.ok (acc2, seen2) => get_connected_pins b fuel seen2 acc2 rest
      else get_connected_pins b fuel seen acc rest

/-- Connected nodes (`InternalNode::get_connected`). -/
def get_connected (b : Board) (fuel : Nat) (n : Nat) : Except String (List Nat) :=
  get_connected_pins b fuel [] [] (b.nodeD n).pins

/-- Pin lookup by name (`get_pin_by_name` via the lazily built name cache:
first owned pin carrying the name). -/
def find_pin_by_name (b : Board) (n : Nat) (name : String) : Option Nat :=
  (b.nodeD n).pins.find? (fun i =>
    match b.pin? i with
    | some pd => pd.name == name
    | none => false)

/-- Handler targets (`InternalNode::get_error_handled_nodes`): resolve `auto_handle_error`,
require it active (a boolean `true`), require an exec output, then strict-walk
its `connected_to` edges. -/
def get_error_handled_nodes (b : Board) (w : World) (fuel : Nat) (n : Nat) :
    Except String (List Nat) :=
  match find_pin_by_name b n "auto_handle_error" with
  | none => Except.error "Pin auto_handle_error not found"
  | some p =>
    match evaluate_pin_value b w p with
    | Except.error e => Except.error e
    | Except.ok v =>
      let active := match v with
        | Val.vbool bb => bb
        | _ => false
      if !active then Except.error "Error Pin not active"
      else
        match b.pin? p with
        | none => Except.error "Failed to lock Pin"
        | some pd =>
          if pd.pin_type != PinType.output then Except.error "Pin is not an output pin"
          else if pd.data_type != VariableType.execution then
            Except.error "Pin is not an execution pin"
          else
            match strict_walk b (fun q => q.connected_to) fuel pd.connected_to.reverse [] [] [] with
            | Except.error e => Except.error e
            | Except.ok (acc, _) => Except.ok acc

/-- Targets (`ExecutionTarget`): a downstream node plus the pins it was reached through. -/
structure ExecutionTarget where
  node : Nat
  through_pins : List Nat
deriving DecidableEq, Repr

/-- Group insertion of `get_connected_exec`: per-node pin lists, de-duplicated. -/
def groups_add (parent p : Nat) : List (Nat × List Nat) → List (Nat × List Nat)
  | [] => [(parent, [p])]
  | (m, ps) :: rest =>
    if m == parent then (m, if p ∈ ps then ps else ps ++ [p]) :: rest
    else (m, ps) :: groups_add parent p rest

/-- The inner worklist of `get_connected_exec`: a failed upgrade is *skipped*
(`let Some .. else continue`), relays are followed, reached owners are grouped. -/
def exec_walk (b : Board) :
    Nat → List Nat → List Nat → List (Nat × List Nat) → List (Nat × List Nat)
  | 0, _, _, groups => groups
  | _ + 1, [], _, groups => groups
  | fuel + 1, p :: rest, visited, groups =>
    match b.pin? p with
    | none => exec_walk b fuel rest visited groups
    | some pd =>
      if p ∈ visited then exec_walk b fuel rest visited groups
      else
        match pd.node with
        | some parent => exec_walk b fuel rest (p :: visited) (groups_add parent p groups)
        | none => exec_walk b fuel (pd.connected_to.reverse ++ rest) (p :: visited) groups

/-- The pin loop of `get_connected_exec`: only exec outputs contribute, and
with `filter_valid` only those whose evaluated value is `Bool(true)`; the
groups accumulate across pins, the visited pin set is reset per pin. -/
def get_connected_exec_pins (b : Board) (w : World) (fuel : Nat) (filterValid : Bool)
    (groups : List (Nat × List Nat)) : List Nat → List (Nat × List Nat)
  | [] => groups
  | i :: rest =>
    match b.pin? i with
    | none => get_connected_exec_pins b w fuel filterValid groups rest
    | some pd =>
      if pd.pin_type != PinType.output || pd.data_type != VariableType.execution then
        get_connected_exec_pins b w fuel filterValid groups rest
      else if filterValid &&
          !(match evaluate_pin_value b w i with
            | Except.ok (Val.vbool true) => true
            | _ => false) then
        get_connected_exec_pins b w fuel filterValid groups rest
      else
        get_connected_exec_pins b w fuel filterValid
          (exec_walk b fuel pd.connected_to.reverse [] groups) rest

/-- Exec targets (`InternalNode::get_connected_exec`; materialization in insertion order;
the source's hash-map order is unspecified). -/
def get_connected_exec (b : Board) (w : World) (fuel : Nat) (n : Nat) (filterValid : Bool) :
    List ExecutionTarget :=
  (get_connected_exec_pins b w fuel filterValid [] (b.nodeD n).pins).map
    (fun g => { node := g.1, through_pins := g.2 })

/-- Modelled from the spec: `ExecutionContext::activate_exec_pin` is part of
the context module, which is not among the provided sources. Per spec
section 4.3 it sets the named exec output's token to true; callers in the
engine ignore its errors (`let _ = ..`), so a missing pin is a no-op. -/
def activate_exec_pin (b : Board) (w : World) (n : Nat) (name : String) : World :=
  match find_pin_by_name b n name with
  | some p => w.setPin p (Val.vbool true)
  | none => w

/-- Modelled from the spec: `ExecutionContext::set_pin_value` (context module,
not among the provided sources). Per spec section 4.3 it writes the value to
the named pin; engine callers ignore its errors, so a missing pin is a no-op. -/
def set_pin_value (b : Board) (w : World) (n : Nat) (name : String) (v : Val) : World :=
  match find_pin_by_name b n name with
  | some p => w.setPin p v
  | none => w

/-- Runner `run_node_logic_only`: set `Running`, ensure the guard, skip (returning
`Ok`) when the node id is already guarded, otherwise insert the id, run the
logic, and finalize the state as `Error`/`Success`. The `logicStart` event
records the guard as received; `logicRun` marks an actual `logic.run` call. -/
def run_node_logic_only (b : Board) (n : Nat) (w0 : World) (g0 : Guard) :
    Except InternalNodeError Unit × World × Guard :=
  let w := (w0.setState n NodeState.running).emit (Event.logicStart n g0)
  let node := b.nodeD n
  let g1 : Guard := some (gval g0)
  if node.id ∈ gval g1 then
    (Except.ok (), w.emit (Event.log ("Recursion detected for: " ++ node.id) LogLevel.debug), g1)
  else
    let g2 : Guard := some (node.id :: gval g1)
    let w := w.emit (Event.logicRun n)
    let w := node.logicWrites.foldl (fun acc pv => acc.setPin pv.1 pv.2) w
    match node.logicResult with
    | Except.error e =>
      (Except.error (InternalNodeError.ExecutionFailed node.id),
       ((w.emit (Event.log ("Failed to execute node: " ++ e) LogLevel.error)).setState
         n NodeState.error),
       g2)
    | Except.ok _ => (Except.ok (), w.setState n NodeState.success, g2)

/-- DFS phases of the dependency walker. -/
inductive Phase where
  | enter
  | leave
deriving DecidableEq, Repr

/-- The main loop of `trigger_missing_dependencies`: post-order iterative DFS
over pure parents with `scheduled` / `visiting` identity sets. A node found on
the visiting set logs the cycle and fails the walk; a guarded node id is
skipped on exit; a failing dependency run aborts the walk. -/
def tmd_loop (b : Board) (pfuel : Nat) :
    Nat → List (Nat × Phase) → List Nat → List Nat → World → Guard → Bool × World × Guard
  | 0, stack, _, _, w, g => (stack.isEmpty, w, g)
  | _ + 1, [], _, _, w, g => (true, w, g)
  | fuel + 1, (n, Phase.enter) :: rest, scheduled, visiting, w, g =>
    if n ∈ scheduled then tmd_loop b pfuel fuel rest scheduled visiting w g
    else if n ∈ visiting then
      (false, w.emit (Event.log "Cycle detected while resolving dependencies" LogLevel.error), g)
    else
      let parents := pure_parents b pfuel n
      let pushes := ((parents.filter (fun p => !scheduled.contains p)).reverse).map
        (fun p => (p, Phase.enter))
      tmd_loop b pfuel fuel (pushes ++ (n, Phase.leave) :: rest) scheduled (n :: visiting) w g
  | fuel + 1, (n, Phase.leave) :: rest, scheduled, visiting, w, g =>
    let visiting := visiting.erase n
    if n ∈ scheduled then tmd_loop b pfuel fuel rest scheduled visiting w g
    else
      let node := b.nodeD n
      if (gval g).contains node.id then
        tmd_loop b pfuel fuel rest (n :: scheduled) visiting
          (w.emit (Event.log ("Recursion detected for: " ++ node.id ++ ", skipping execution")
            LogLevel.debug)) g
      else
        match run_node_logic_only b n w g with
        | (Except.error _, w2, g2) =>
          (false,
           w2.emit (Event.log ("Failed to trigger dependency: " ++ node.friendly_name)
             LogLevel.error),
           g2)
        | (Except.ok _, w2, g2) => tmd_loop b pfuel fuel rest (n :: scheduled) visiting w2 g2

/-- Walker `trigger_missing_dependencies`: seed the walk with the pure
parents of the current node (de-duplicated by identity) and run the loop. The
`depsStart` event records the guard as received. -/
def trigger_missing_dependencies (b : Board) (pfuel fuel : Nat) (n : Nat) (w : World)
    (g : Guard) : Bool × World × Guard :=
  let w := w.emit (Event.depsStart n g)
  let roots0 := pure_parents b pfuel n
  let roots := if roots0.length > 1 then dedup_keep_first [] roots0 else roots0
  tmd_loop b pfuel fuel (roots.reverse.map (fun m => (m, Phase.enter))) [] [] w g

/-- The successor walk inside `InternalNode::handle_error`: pops execution
targets with an identity-keyed seen set, runs each target's dependencies and
logic with the *shared* recursion guard, and aborts the chain (reporting
`ExecutionFailed(ctxId)`, writing the error strings) on any failure. -/
def handle_error_succ_loop (b : Board) (fuel : Nat) (ctxId : String) (handlerN : Nat) :
    Nat → List ExecutionTarget → List Nat → World → Guard →
      Except InternalNodeError Unit × World × Guard
  | 0, stack, _, w, g =>
    (if stack.isEmpty then Except.ok () else Except.error (InternalNodeError.ExecutionFailed ctxId),
     w, g)
  | _ + 1, [], _, w, g => (Except.ok (), w, g)
  | lf + 1, next :: rest, seen, w, g =>
    if next.node ∈ seen then handle_error_succ_loop b fuel ctxId handlerN lf rest seen w g
    else
      let w := w.emit (Event.errSuccStart next.node g)
      match trigger_missing_dependencies b fuel fuel next.node w g with
      | (false, w1, g1) =>
        let w1 := set_pin_value b w1 next.node "auto_handle_error_string"
          (Val.vstr "Failed to trigger successor dependencies (error chain)")
        let w1 := set_pin_value b w1 handlerN "auto_handle_error_string"
          (Val.vstr "error chain aborted")
        (Except.error (InternalNodeError.ExecutionFailed ctxId), w1, g1)
      | (true, w1, g1) =>
        match run_node_logic_only b next.node w1 g1 with
        | (Except.error e, w2, g2) =>
          let w2 := set_pin_value b w2 next.node "auto_handle_error_string"
            (Val.vstr (errString e))
          let w2 := set_pin_value b w2 handlerN "auto_handle_error_string"
            (Val.vstr "error chain aborted")
          (Except.error (InternalNodeError.ExecutionFailed ctxId), w2, g2)
        | (Except.ok _, w2, g2) =>
          let more := get_connected_exec b w2 fuel next.node true
          handle_error_succ_loop b fuel ctxId handlerN lf (more.reverse ++ rest)
            (next.node :: seen) w2 g2

/-- The handler loop of `InternalNode::handle_error`: for each handler run
its dependencies, its logic and then its exec successors, all with the
*shared* recursion guard. Any failure aborts with `ExecutionFailed(ctxId)`. -/
def handle_error_handlers (b : Board) (fuel : Nat) (ctxId : String) :
    List Nat → World → Guard → Except InternalNodeError Unit × World × Guard
  | [], w, g => (Except.ok (), w, g)
  | h :: rest, w, g =>
    let w := w.emit (Event.handlerStart h g)
    match trigger_missing_dependencies b fuel fuel h w g with
    | (false, w1, g1) =>
      (Except.error (InternalNodeError.ExecutionFailed ctxId),
       set_pin_value b w1 h "auto_handle_error_string"
         (Val.vstr "Failed to trigger missing dependencies for error handler"),
       g1)
    | (true, w1, g1) =>
      match run_node_logic_only b h w1 g1 with
      | (Except.error e, w2, g2) =>
        (Except.error (InternalNodeError.ExecutionFailed ctxId),
         set_pin_value b w2 h "auto_handle_error_string" (Val.vstr (errString e)),
         g2)
      | (Except.ok _, w2, g2) =>
        let stack := (get_connected_exec b w2 fuel h true).reverse
        match handle_error_succ_loop b fuel ctxId h fuel stack [] w2 g2 with
        | (Except.error e, w3, g3) => (Except.error e, w3, g3)
        | (Except.ok _, w3, g3) => handle_error_handlers b fuel ctxId rest w3 g3

/-- The preamble of `InternalNode::handle_error`: activate the
`auto_handle_error` exec output and write the error text to
`auto_handle_error_string` (both with errors ignored). -/
def handle_error_pre (b : Board) (n : Nat) (err : String) (w : World) (g : Guard) : World :=
  set_pin_value b
    (activate_exec_pin b (w.emit (Event.handleErrorStart n g)) n "auto_handle_error")
    n "auto_handle_error_string" (Val.vstr err)

/-- Router `InternalNode::handle_error`: run the preamble, fetch the handler targets
(failing with `ExecutionFailed(ctx.id)` when the pin is missing/inactive or
no handler is wired), drive every handler subgraph with the shared guard, and
finally mark the failing node's state `Error`. The context id is the failing
node's id (modelled from the spec: `ExecutionContext.id` is not among the
provided sources; per spec sections 4.7 and 7 the reported id is the failing
node's). -/
def handle_error (b : Board) (fuel : Nat) (n : Nat) (err : String) (w : World) (g : Guard) :
    Except InternalNodeError Unit × World × Guard :=
  let node := b.nodeD n
  let w := handle_error_pre b n err w g
  match get_error_handled_nodes b w fuel n with
  | Except.error e =>
    (Except.error (InternalNodeError.ExecutionFailed node.id),
     w.emit (Event.log ("Failed to get error handling nodes: " ++ e) LogLevel.error), g)
  | Except.ok connected =>
    if connected.isEmpty then
      (Except.error (InternalNodeError.ExecutionFailed node.id),
       w.emit (Event.log ("No error handling nodes found for: " ++ node.id) LogLevel.error), g)
    else
      match handle_error_handlers b fuel node.id connected w g with
      | (Except.error e, w1, g1) => (Except.error e, w1, g1)
      | (Except.ok _, w1, g1) => (Except.ok (), w1.setState n NodeState.error, g1)

/-- The successor walk of `InternalNode::trigger`: pops execution targets
with an identity-keyed seen set; each popped successor gets a *fresh*
recursion guard (`local_guard = None`, recorded in the `succStart` event).
A failed dependency run routes through `handle_error`; a failed logic run
only activates the successor's `auto_handle_error` pin and writes the error
string; either failure aborts the walk with `ExecutionFailed(rootId)` (or
with `handle_error`'s own error when routing fails). -/
def trigger_succ_loop (b : Board) (fuel : Nat) (rootId : String) :
    Nat → List ExecutionTarget → List Nat → World → Except InternalNodeError Unit × World
  | 0, stack, _, w =>
    (if stack.isEmpty then Except.ok ()
     else Except.error (InternalNodeError.ExecutionFailed rootId), w)
  | _ + 1, [], _, w => (Except.ok (), w)
  | lf + 1, next :: rest, seen, w =>
    if next.node ∈ seen then trigger_succ_loop b fuel rootId lf rest seen w
    else
      let w := w.emit (Event.succStart next.node none)
      match trigger_missing_dependencies b fuel fuel next.node w none with
      | (false, w1, g1) =>
        match handle_error b fuel next.node "Failed to trigger successor dependencies" w1 g1 with
        | (Except.error e, w2, _) => (Except.error e, w2)
        | (Except.ok _, w2, _) => (Except.error (InternalNodeError.ExecutionFailed rootId), w2)
      | (true, w1, g1) =>
        match run_node_logic_only b next.node w1 g1 with
        | (Except.error e, w2, _) =>
          let w2 := activate_exec_pin b w2 next.node "auto_handle_error"
          let w2 := set_pin_value b w2 next.node "auto_handle_error_string"
            (Val.vstr (errString e))
          (Except.error (InternalNodeError.ExecutionFailed rootId), w2)
        | (Except.ok _, w2, _) =>
          let more := get_connected_exec b w2 fuel next.node true
          trigger_succ_loop b fuel rootId lf (more.reverse ++ rest) (next.node :: seen) w2

/-- Entry point `InternalNode::trigger`: run the dependency walker (routing failures
through `handle_error` and reporting `DependencyFailed(root)`), run the
node's own logic (routing failures through `handle_error` and reporting
`ExecutionFailed(root)`), then, with successors requested, walk the exec
targets. `handle_error`'s own error propagates (`?`). -/
def trigger (b : Board) (fuel : Nat) (n : Nat) (withSuccessors : Bool) (w : World) (g : Guard) :
    Except InternalNodeError Unit × World × Guard :=
  match trigger_missing_dependencies b fuel fuel n w g with
  | (false, w1, g1) =>
    let w1 := w1.emit (Event.log "Failed to trigger missing dependencies" LogLevel.error)
    match handle_error b fuel n "Failed to trigger missing dependencies" w1 g1 with
    | (Except.error e, w2, g2) => (Except.error e, w2, g2)
    | (Except.ok _, w2, g2) =>
      (Except.error (InternalNodeError.DependencyFailed (b.nodeD n).id), w2, g2)
  | (true, w1, g1) =>
    match run_node_logic_only b n w1 g1 with
    | (Except.error e, w2, g2) =>
      match handle_error b fuel n (errString e) w2 g2 with
      | (Except.error e2, w3, g3) => (Except.error e2, w3, g3)
      | (Except.ok _, w3, g3) =>
        (Except.error (InternalNodeError.ExecutionFailed (b.nodeD n).id), w3, g3)
    | (Except.ok _, w2, g2) =>
      if withSuccessors then
        let succ := get_connected_exec b w2 fuel n true
        match trigger_succ_loop b fuel (b.nodeD n).id fuel succ.reverse [] w2 with
        | (Except.error e, w3) => (Except.error e, w3, g2)
        | (Except.ok _, w3) => (Except.ok (), w3, g2)
      else (Except.ok (), w2, g2)

/-! Concrete boards used as counterexamples and witnesses. -/

/-- A board with a pure data cycle (`a` ↔ `b`) feeding the root, and an
error handler wired to the root's `auto_handle_error` pin. -/
def cycleBoard : Board :=
  { pins :=
      [ { name := "ir", pin_type := PinType.input, data_type := VariableType.integer,
          depends_on := [2], connected_to := [], default_value := none, node := some 0 },
        { name := "ia", pin_type := PinType.input, data_type := VariableType.integer,
          depends_on := [4], connected_to := [], default_value := none, node := some 1 },
        { name := "oa", pin_type := PinType.output, data_type := VariableType.integer,
          depends_on := [], connected_to := [], default_value := none, node := some 1 },
        { name := "ib", pin_type := PinType.input, data_type := VariableType.integer,
          depends_on := [2], connected_to := [], default_value := none, node := some 2 },
        { name := "ob", pin_type := PinType.output, data_type := VariableType.integer,
          depends_on := [], connected_to := [], default_value := none, node := some 2 },
        { name := "auto_handle_error", pin_type := PinType.output,
          data_type := VariableType.execution, depends_on := [], connected_to := [6],
          default_value := none, node := some 0 },
        { name := "hin", pin_type := PinType.input, data_type := VariableType.execution,
          depends_on := [5], connected_to := [], default_value := none, node := some 3 },
        { name := "auto_handle_error_string", pin_type := PinType.output,
          data_type := VariableType.stringV, depends_on := [], connected_to := [],
          default_value := none, node := some 0 } ],
    nodes :=
      [ { id := "root", friendly_name := "root", pins := [0, 5, 7], logicWrites := [],
          logicResult := Except.ok () },
        { id := "a", friendly_name := "a", pins := [1, 2], logicWrites := [],
          logicResult := Except.ok () },
        { id := "b", friendly_name := "b", pins := [3, 4], logicWrites := [],
          logicResult := Except.ok () },
        { id := "handler", friendly_name := "handler", pins := [6], logicWrites := [],
          logicResult := Except.ok () } ] }

/-- The pristine runtime state for `cycleBoard`. -/
def cycleWorld : World :=
  { pinVals := [none, none, none, none, none, none, none, none],
    states := [NodeState.idle, NodeState.idle, NodeState.idle, NodeState.idle],
    trace := [] }

/-- A board where the root succeeds, its exec successor `succ` fails, and
`succ` has an error handler wired to its `auto_handle_error` pin. -/
def succFailBoard : Board :=
  { pins :=
      [ { name := "exec_out", pin_type := PinType.output, data_type := VariableType.execution,
          depends_on := [], connected_to := [1], default_value := none, node := some 0 },
        { name := "exec_in", pin_type := PinType.input, data_type := VariableType.execution,
          depends_on := [0], connected_to := [], default_value := none, node := some 1 },
        { name := "auto_handle_error", pin_type := PinType.output,
          data_type := VariableType.execution, depends_on := [], connected_to := [3],
          default_value := none, node := some 1 },
        { name := "exec_in", pin_type := PinType.input, data_type := VariableType.execution,
          depends_on := [2], connected_to := [], default_value := none, node := some 2 },
        { name := "auto_handle_error_string", pin_type := PinType.output,
          data_type := VariableType.stringV, depends_on := [], connected_to := [],
          default_value := none, node := some 1 } ],
    nodes :=
      [ { id := "root", friendly_name := "root", pins := [0], logicWrites := [(0, Val.vbool true)],
          logicResult := Except.ok () },
        { id := "succ", friendly_name := "succ", pins := [1, 2, 4], logicWrites := [],
          logicResult := Except.error "boom" },
        { id := "handler", friendly_name := "handler", pins := [3], logicWrites := [],
          logicResult := Except.ok () } ] }

/-- The pristine runtime state for `succFailBoard`. -/
def succFailWorld : World :=
  { pinVals := [none, none, none, none, none],
    states := [NodeState.idle, NodeState.idle, NodeState.idle],
    trace := [] }

/-- A board whose root fails and has a handler wired to `auto_handle_error`. -/
def rootFailBoard : Board :=
  { pins :=
      [ { name := "auto_handle_error", pin_type := PinType.output,
          data_type := VariableType.execution, depends_on := [], connected_to := [1],
          default_value := none, node := some 0 },
        { name := "exec_in", pin_type := PinType.input, data_type := VariableType.execution,
          depends_on := [0], connected_to := [], default_value := none, node := some 1 },
        { name := "auto_handle_error_string", pin_type := PinType.output,
          data_type := VariableType.stringV, depends_on := [], connected_to := [],
          default_value := none, node := some 0 } ],
    nodes :=
      [ { id := "root", friendly_name := "root", pins := [0, 2], logicWrites := [],
          logicResult := Except.error "kaboom" },
        { id := "handler", friendly_name := "handler", pins := [1], logicWrites := [],
          logicResult := Except.ok () } ] }

/-- The pristine runtime state for `rootFailBoard`. -/
def rootFailWorld : World :=
  { pinVals := [none, none, none],
    states := [NodeState.idle, NodeState.idle],
    trace := [] }

/-- A board with a single exec input whose upstream pin carries a *falsy*
token (`Bool(false)`). -/
def falsyTokenBoard : Board :=
  { pins :=
      [ { name := "e_in", pin_type := PinType.input, data_type := VariableType.execution,
          depends_on := [1], connected_to := [], default_value := none, node := some 0 },
        { name := "e_out", pin_type := PinType.output, data_type := VariableType.execution,
          depends_on := [], connected_to := [0], default_value := none, node := some 1 } ],
    nodes :=
      [ { id := "n", friendly_name := "n", pins := [0], logicWrites := [],
          logicResult := Except.ok () },
        { id := "m", friendly_name := "m", pins := [1], logicWrites := [],
          logicResult := Except.ok () } ] }

/-- Runtime state where the upstream exec pin holds `Bool(false)`. -/
def falsyTokenWorld : World :=
  { pinVals := [none, some (Val.vbool false)],
    states := [NodeState.idle, NodeState.idle],
    trace := [] }

/-- The dangling input pin of `danglingBoard` (its `depends_on` references the
deleted pin index 5). -/
def danglingPin : PinData :=
  { name := "x", pin_type := PinType.input, data_type := VariableType.integer,
    depends_on := [5], connected_to := [], default_value := none, node := some 0 }

/-- A board whose single node has an input pin with a dangling weak edge. -/
def danglingBoard : Board :=
  { pins := [danglingPin],
    nodes :=
      [ { id := "n", friendly_name := "n", pins := [0], logicWrites := [],
          logicResult := Except.ok () } ] }

/-- A one-node board used to exercise the recursion-guard skip. -/
def guardBoard : Board :=
  { pins := [],
    nodes :=
      [ { id := "x", friendly_name := "x", pins := [], logicWrites := [],
          logicResult := Except.ok () } ] }

/-- The pristine runtime state for `guardBoard`. -/
def guardWorld : World :=
  { pinVals := [], states := [NodeState.idle], trace := [] }

/-! Observation helpers used by the theorem statements. -/

/-- The node of a `succStart` event (the trigger walk popping a successor). -/
def succNode? : Event → Option Nat
  | Event.succStart m _ => some m
  | _ => none

/-- The successor-pop nodes recorded in a trace, in order. -/
def succNodes (t : List Event) : List Nat := t.filterMap succNode?

/-- The recursion-guard snapshot carried by an event, when it has one. -/
def eventGuard : Event → Option Guard
  | Event.logicStart _ g => some g
  | Event.depsStart _ g => some g
  | Event.succStart _ g => some g
  | Event.handleErrorStart _ g => some g
  | Event.handlerStart _ g => some g
  | Event.errSuccStart _ g => some g
  | _ => none

/-- Guard extension: everything guarded by `g` is still guarded by `g2`
(no reset happened between the two snapshots). -/
def GExt (g g2 : Guard) : Prop := ∀ s ∈ gval g, s ∈ gval g2

/-- Emission discipline of the engine's non-walk components: no successor pop
is recorded, and every guard snapshot extends the entry guard `g`. -/
def Emits (g : Guard) (t : List Event) : Prop :=
  (∀ ev ∈ t, succNode? ev = none) ∧
  (∀ ev ∈ t, ∀ gs, eventGuard ev = some gs → GExt g gs)

/-- Pin reachability from node `n` through non-exec input pins, traversing
relay pins and never crossing an exec edge: the paths `pure_parents_for_memo`
is allowed to take. -/
inductive PReach (b : Board) (n : Nat) : Nat → Prop
  | seed (i : Nat) (pd : PinData) (d : Nat) :
      i ∈ (b.nodeD n).pins → b.pin? i = some pd →
      pd.pin_type = PinType.input → pd.data_type ≠ VariableType.execution →
      d ∈ pd.depends_on → PReach b n d
  | relay (q : Nat) (qd : PinData) (d : Nat) :
      PReach b n q → b.pin? q = some qd → qd.node = none →
      d ∈ qd.depends_on → PReach b n d

/-- All weak references on the node's input pins upgrade (no deleted pins). -/
def deps_live (b : Board) (n : Nat) : Bool :=
  (b.nodeD n).pins.all (fun i =>
    match b.pin? i with
    | some pd =>
      if pd.pin_type == PinType.input then pd.depends_on.all (fun d => (b.pin? d).isSome)
      else true
    | none => true)

/-- The handler targets `handle_error` fetches (its preamble replayed:
activate the error pin, write the error text, resolve the targets). -/
def handle_error_targets (b : Board) (fuel : Nat) (n : Nat) (err : String) (w : World)
    (g : Guard) : List Nat :=
  match get_error_handled_nodes b (handle_error_pre b n err w g) fuel n with
  | Except.ok l => l
  | Except.error _ => []

/-- Whether an `Except` is an error. -/
def exceptErr {ε α : Type} : Except ε α → Bool
  | Except.error _ => true
  | Except.ok _ => false

/-! Basic lemmas about guards, worlds and emission disciplines. -/

theorem GExt_refl (g : Guard) : GExt g g := fun _ hs => hs

theorem GExt_trans {a c : Guard} (b : Guard) (h1 : GExt a b) (h2 : GExt b c) : GExt a c :=
  fun s hs => h2 s (h1 s hs)

theorem GExt_some_gval (g : Guard) : GExt g (some (gval g)) := fun _ hs => hs

theorem GExt_cons (g : Guard) (x : String) : GExt g (some (x :: gval g)) :=
  fun _ hs => List.mem_cons_of_mem x hs

theorem emit_trace (w : World) (e : Event) : (w.emit e).trace = w.trace ++ [e] := rfl

theorem setState_trace (w : World) (n : Nat) (s : NodeState) :
    (w.setState n s).trace = w.trace := rfl

theorem setPin_trace (w : World) (p : Nat) (v : Val) : (w.setPin p v).trace = w.trace := rfl

theorem setState_states_length (w : World) (n : Nat) (s : NodeState) :
    (w.setState n s).states.length = w.states.length := by
  simp [World.setState]

theorem setPin_states (w : World) (p : Nat) (v : Val) : (w.setPin p v).states = w.states := rfl

theorem emit_states (w : World) (e : Event) : (w.emit e).states = w.states := rfl

theorem writes_fold_trace (l : List (Nat × Val)) (w : World) :
    (l.foldl (fun acc pv => acc.setPin pv.1 pv.2) w).trace = w.trace := by
  induction l generalizing w with
  | nil => rfl
  | cons hd tl ih => simpa using ih (w.setPin hd.1 hd.2)

theorem writes_fold_states (l : List (Nat × Val)) (w : World) :
    (l.foldl (fun acc pv => acc.setPin pv.1 pv.2) w).states = w.states := by
  induction l generalizing w with
  | nil => rfl
  | cons hd tl ih => simpa using ih (w.setPin hd.1 hd.2)

theorem activate_exec_pin_trace (b : Board) (w : World) (n : Nat) (name : String) :
    (activate_exec_pin b w n name).trace = w.trace := by
  unfold activate_exec_pin
  cases find_pin_by_name b n name <;> rfl

theorem activate_exec_pin_states (b : Board) (w : World) (n : Nat) (name : String) :
    (activate_exec_pin b w n name).states = w.states := by
  unfold activate_exec_pin
  cases find_pin_by_name b n name <;> rfl

theorem set_pin_value_trace (b : Board) (w : World) (n : Nat) (name : String) (v : Val) :
    (set_pin_value b w n name v).trace = w.trace := by
  unfold set_pin_value
  cases find_pin_by_name b n name <;> rfl

theorem set_pin_value_states (b : Board) (w : World) (n : Nat) (name : String) (v : Val) :
    (set_pin_value b w n name v).states = w.states := by
  unfold set_pin_value
  cases find_pin_by_name b n name <;> rfl

theorem Emits_nil (g : Guard) : Emits g [] :=
  ⟨fun _ h => absurd h (List.not_mem_nil _), fun _ h => absurd h (List.not_mem_nil _)⟩

theorem Emits_append {g : Guard} {t1 t2 : List Event} (h1 : Emits g t1) (h2 : Emits g t2) :
    Emits g (t1 ++ t2) := by
  refine ⟨fun ev hev => ?_, fun ev hev gs hgs => ?_⟩
  · rcases List.mem_append.mp hev with h | h
    · exact h1.1 ev h
    · exact h2.1 ev h
  · rcases List.mem_append.mp hev with h | h
    · exact h1.2 ev h gs hgs
    · exact h2.2 ev h gs hgs

theorem Emits_weaken {g g2 : Guard} {t : List Event} (hg : GExt g g2) (h : Emits g2 t) :
    Emits g t :=
  ⟨h.1, fun ev hev gs hgs => GExt_trans g2 hg (h.2 ev hev gs hgs)⟩

theorem Emits_single_log (g : Guard) (msg : String) (lvl : LogLevel) :
    Emits g [Event.log msg lvl] := by
  refine ⟨fun ev hev => ?_, fun ev hev gs hgs => ?_⟩
  · rcases List.mem_singleton.mp hev with rfl
    rfl
  · rcases List.mem_singleton.mp hev with rfl
    simp [eventGuard] at hgs

theorem Emits_single_snap {g gs : Guard} (hg : GExt g gs) (ev : Event)
    (hev : eventGuard ev = some gs) (hsucc : succNode? ev = none) : Emits g [ev] := by
  refine ⟨fun e he => ?_, fun e he gs2 hgs2 => ?_⟩
  · rcases List.mem_singleton.mp he with rfl
    exact hsucc
  · rcases List.mem_singleton.mp he with rfl
    rw [hev] at hgs2
    cases hgs2
    exact hg

theorem Emits_single_run (g : Guard) (n : Nat) : Emits g [Event.logicRun n] := by
  refine ⟨fun ev hev => ?_, fun ev hev gs hgs => ?_⟩
  · rcases List.mem_singleton.mp hev with rfl
    rfl
  · rcases List.mem_singleton.mp hev with rfl
    simp [eventGuard] at hgs

/-- Emission/guard/state discipline of `run_node_logic_only`: the trace only
grows, no successor pop is recorded, every snapshot extends the entry guard,
the output guard extends the entry guard, and the states vector keeps its
length. -/
theorem run_node_logic_only_spec (b : Board) (n : Nat) (w : World) (g : Guard) :
    ∃ t, (run_node_logic_only b n w g).2.1.trace = w.trace ++ t ∧ Emits g t ∧
      GExt g (run_node_logic_only b n w g).2.2 ∧
      (run_node_logic_only b n w g).2.1.states.length = w.states.length := by
  simp only [run_node_logic_only]
  by_cases hc : (b.nodeD n).id ∈ gval (some (gval g))
  · simp only [if_pos hc]
    refine ⟨[Event.logicStart n g,
        Event.log ("Recursion detected for: " ++ (b.nodeD n).id) LogLevel.debug], ?_, ?_, ?_, ?_⟩
    · simp [World.emit, World.setState]
    · exact Emits_append
        (Emits_single_snap (GExt_refl g) (Event.logicStart n g) rfl rfl)
        (Emits_single_log g _ _)
    · exact GExt_some_gval g
    · simp [World.emit, World.setState]
  · simp only [if_neg hc]
    cases hres : (b.nodeD n).logicResult with
    | error e =>
      simp only [hres]
      refine ⟨[Event.logicStart n g, Event.logicRun n,
        Event.log ("Failed to execute node: " ++ e) LogLevel.error], ?_, ?_, ?_, ?_⟩
      · simp [World.setState, writes_fold_trace, World.emit]
      · exact Emits_append (Emits_append
          (Emits_single_snap (GExt_refl g) (Event.logicStart n g) rfl rfl)
          (Emits_single_run g n)) (Emits_single_log g _ _)
      · exact GExt_cons g (b.nodeD n).id
      · simp [World.setState, writes_fold_states, World.emit]
    | ok u =>
      simp only [hres]
      refine ⟨[Event.logicStart n g, Event.logicRun n], ?_, ?_, ?_, ?_⟩
      · simp [World.setState, writes_fold_trace, World.emit]
      · exact Emits_append
          (Emits_single_snap (GExt_refl g) (Event.logicStart n g) rfl rfl)
          (Emits_single_run g n)
      · exact GExt_cons g (b.nodeD n).id
      · simp [World.setState, writes_fold_states, World.emit]

/-- Emission/guard/state discipline of the dependency-walker loop. -/
theorem tmd_loop_spec (b : Board) (pfuel : Nat) :
    ∀ (fuel : Nat) (stack : List (Nat × Phase)) (scheduled visiting : List Nat)
      (w : World) (g : Guard),
    ∃ t, (tmd_loop b pfuel fuel stack scheduled visiting w g).2.1.trace = w.trace ++ t ∧
      Emits g t ∧ GExt g (tmd_loop b pfuel fuel stack scheduled visiting w g).2.2 ∧
      (tmd_loop b pfuel fuel stack scheduled visiting w g).2.1.states.length =
        w.states.length := by
  intro fuel
  induction fuel with
  | zero =>
    intro stack scheduled visiting w g
    exact ⟨[], by simp [tmd_loop], Emits_nil g, GExt_refl g, rfl⟩
  | succ fuel ih =>
    intro stack scheduled visiting w g
    match stack with
    | [] => exact ⟨[], by simp [tmd_loop], Emits_nil g, GExt_refl g, rfl⟩
    | (n, Phase.enter) :: rest =>
      by_cases hs : n ∈ scheduled
      · simpa [tmd_loop, hs] using ih rest scheduled visiting w g
      · by_cases hv : n ∈ visiting
        · refine ⟨[Event.log "Cycle detected while resolving dependencies" LogLevel.error],
            ?_, Emits_single_log g _ _, ?_, ?_⟩ <;>
            simp [tmd_loop, hs, hv, World.emit, GExt_refl]
        · simpa [tmd_loop, hs, hv] using
            ih ((((pure_parents b pfuel n).filter
                (fun p => !scheduled.contains p)).reverse).map (fun p => (p, Phase.enter)) ++
              (n, Phase.leave) :: rest) scheduled (n :: visiting) w g
    | (n, Phase.leave) :: rest =>
      by_cases hs : n ∈ scheduled
      · simpa [tmd_loop, hs] using ih rest scheduled (visiting.erase n) w g
      · by_cases hg : (b.nodeD n).id ∈ gval g
        · rcases ih rest (n :: scheduled) (visiting.erase n)
            (w.emit (Event.log ("Recursion detected for: " ++ (b.nodeD n).id ++
              ", skipping execution") LogLevel.debug)) g with ⟨t, ht, hem, hge, hlen⟩
          refine ⟨Event.log ("Recursion detected for: " ++ (b.nodeD n).id ++
              ", skipping execution") LogLevel.debug :: t, ?_, ?_, ?_, ?_⟩
          · simp only [tmd_loop, hs, hg]
            simpa [World.emit, hs, hg] using ht
          · simpa using Emits_append (Emits_single_log g _ _) hem
          · simpa [tmd_loop, hs, hg] using hge
          · simpa [tmd_loop, hs, hg, World.emit] using hlen
        · rcases hr : run_node_logic_only b n w g with ⟨res, w2, g2⟩
          rcases run_node_logic_only_spec b n w g with ⟨t1, ht1, hem1, hge1, hlen1⟩
          rw [hr] at ht1 hge1 hlen1
          have ht1b : w2.trace = w.trace ++ t1 := ht1
          have hge1b : GExt g g2 := hge1
          have hlen1b : w2.states.length = w.states.length := hlen1
          cases res with
          | error e =>
            refine ⟨t1 ++ [Event.log ("Failed to trigger dependency: " ++
                (b.nodeD n).friendly_name) LogLevel.error], ?_, ?_, ?_, ?_⟩
            · simp [tmd_loop, hs, hg, hr, World.emit, ht1b]
            · exact Emits_append hem1 (Emits_single_log g _ _)
            · simpa [tmd_loop, hs, hg, hr] using hge1b
            · simp [tmd_loop, hs, hg, hr, World.emit, hlen1b]
          | ok u =>
            rcases ih rest (n :: scheduled) (visiting.erase n) w2 g2 with
              ⟨t2, ht2, hem2, hge2, hlen2⟩
            refine ⟨t1 ++ t2, ?_, ?_, ?_, ?_⟩
            · simp [tmd_loop, hs, hg, hr, ht2, ht1b]
            · exact Emits_append hem1 (Emits_weaken hge1b hem2)
            · simpa [tmd_loop, hs, hg, hr] using GExt_trans g2 hge1b hge2
            · simp [tmd_loop, hs, hg, hr, hlen2, hlen1b]

/-- Emission/guard/state discipline of `trigger_missing_dependencies`. -/
theorem trigger_missing_dependencies_spec (b : Board) (pfuel fuel : Nat) (n : Nat)
    (w : World) (g : Guard) :
    ∃ t, (trigger_missing_dependencies b pfuel fuel n w g).2.1.trace = w.trace ++ t ∧
      Emits g t ∧ GExt g (trigger_missing_dependencies b pfuel fuel n w g).2.2 ∧
      (trigger_missing_dependencies b pfuel fuel n w g).2.1.states.length =
        w.states.length := by
  unfold trigger_missing_dependencies
  rcases tmd_loop_spec b pfuel fuel
      (((if (pure_parents b pfuel n).length > 1 then
          dedup_keep_first [] (pure_parents b pfuel n)
        else pure_parents b pfuel n)).reverse.map (fun m => (m, Phase.enter))) [] []
      (w.emit (Event.depsStart n g)) g with ⟨t, ht, hem, hge, hlen⟩
  refine ⟨Event.depsStart n g :: t, ?_, ?_, ?_, ?_⟩
  · simpa [World.emit] using ht
  · simpa using Emits_append
      (Emits_single_snap (GExt_refl g) (Event.depsStart n g) rfl rfl) hem
  · exact hge
  · simpa [World.emit] using hlen

/-- Emission/guard/state discipline of the error-chain successor walk. -/
theorem handle_error_succ_loop_spec (b : Board) (fuel : Nat) (ctxId : String) (handlerN : Nat) :
    ∀ (lf : Nat) (stack : List ExecutionTarget) (seen : List Nat) (w : World) (g : Guard),
    ∃ t, (handle_error_succ_loop b fuel ctxId handlerN lf stack seen w g).2.1.trace =
        w.trace ++ t ∧
      Emits g t ∧ GExt g (handle_error_succ_loop b fuel ctxId handlerN lf stack seen w g).2.2 ∧
      (handle_error_succ_loop b fuel ctxId handlerN lf stack seen w g).2.1.states.length =
        w.states.length := by
  intro lf
  induction lf with
  | zero =>
    intro stack seen w g
    exact ⟨[], by simp [handle_error_succ_loop], Emits_nil g, GExt_refl g, rfl⟩
  | succ lf ih =>
    intro stack seen w g
    match stack with
    | [] => exact ⟨[], by simp [handle_error_succ_loop], Emits_nil g, GExt_refl g, rfl⟩
    | next :: rest =>
      by_cases hs : next.node ∈ seen
      · simpa [handle_error_succ_loop, hs] using ih rest seen w g
      · rcases hr : trigger_missing_dependencies b fuel fuel next.node
            (w.emit (Event.errSuccStart next.node g)) g with ⟨ok1, w1, g1⟩
        rcases trigger_missing_dependencies_spec b fuel fuel next.node
            (w.emit (Event.errSuccStart next.node g)) g with ⟨t1, ht1, hem1, hge1, hlen1⟩
        rw [hr] at ht1 hge1 hlen1
        have ht1b : w1.trace = w.trace ++ ([Event.errSuccStart next.node g] ++ t1) := by
          simpa [World.emit] using ht1
        have hge1b : GExt g g1 := hge1
        have hlen1b : w1.states.length = w.states.length := by
          simpa [World.emit] using hlen1
        have hem1b : Emits g ([Event.errSuccStart next.node g] ++ t1) :=
          Emits_append (Emits_single_snap (GExt_refl g) (Event.errSuccStart next.node g) rfl rfl)
            hem1
        cases ok1 with
        | false =>
          refine ⟨[Event.errSuccStart next.node g] ++ t1, ?_, hem1b, ?_, ?_⟩
          · simpa [handle_error_succ_loop, hs, hr, set_pin_value_trace] using ht1b
          · simpa [handle_error_succ_loop, hs, hr] using hge1b
          · simpa [handle_error_succ_loop, hs, hr, set_pin_value_states] using hlen1b
        | true =>
          rcases hr2 : run_node_logic_only b next.node w1 g1 with ⟨res, w2, g2⟩
          rcases run_node_logic_only_spec b next.node w1 g1 with ⟨t2, ht2, hem2, hge2, hlen2⟩
          rw [hr2] at ht2 hge2 hlen2
          have ht2b : w2.trace = w1.trace ++ t2 := ht2
          have hge2b : GExt g1 g2 := hge2
          have hlen2b : w2.states.length = w1.states.length := hlen2
          have hem2b : Emits g t2 := Emits_weaken hge1b hem2
          cases res with
          | error e =>
            refine ⟨[Event.errSuccStart next.node g] ++ t1 ++ t2, ?_, ?_, ?_, ?_⟩
            · simp only [handle_error_succ_loop, hs, hr, hr2]
              simp [set_pin_value_trace, ht2b, ht1b]
            · exact Emits_append hem1b hem2b
            · simpa [handle_error_succ_loop, hs, hr, hr2] using GExt_trans g1 hge1b hge2b
            · simp only [handle_error_succ_loop, hs, hr, hr2]
              simp [set_pin_value_states, hlen2b, hlen1b]
          | ok u =>
            rcases ih ((get_connected_exec b w2 fuel next.node true).reverse ++ rest)
                (next.node :: seen) w2 g2 with ⟨t3, ht3, hem3, hge3, hlen3⟩
            refine ⟨[Event.errSuccStart next.node g] ++ t1 ++ t2 ++ t3, ?_, ?_, ?_, ?_⟩
            · simp only [handle_error_succ_loop, hs, hr, hr2]
              simp [ht3, ht2b, ht1b]
            · exact Emits_append (Emits_append hem1b hem2b)
                (Emits_weaken (GExt_trans g1 hge1b hge2b) hem3)
            · simpa [handle_error_succ_loop, hs, hr, hr2] using
                GExt_trans g2 (GExt_trans g1 hge1b hge2b) hge3
            · simp only [handle_error_succ_loop, hs, hr, hr2]
              simp [hlen3, hlen2b, hlen1b]

/-- Emission/guard/state discipline of the handler loop of `handle_error`. -/
theorem handle_error_handlers_spec (b : Board) (fuel : Nat) (ctxId : String) :
    ∀ (hs : List Nat) (w : World) (g : Guard),
    ∃ t, (handle_error_handlers b fuel ctxId hs w g).2.1.trace = w.trace ++ t ∧
      Emits g t ∧ GExt g (handle_error_handlers b fuel ctxId hs w g).2.2 ∧
      (handle_error_handlers b fuel ctxId hs w g).2.1.states.length = w.states.length := by
  intro hs
  induction hs with
  | nil =>
    intro w g
    exact ⟨[], by simp [handle_error_handlers], Emits_nil g, GExt_refl g, rfl⟩
  | cons h rest ih =>
    intro w g
    rcases hr : trigger_missing_dependencies b fuel fuel h
        (w.emit (Event.handlerStart h g)) g with ⟨ok1, w1, g1⟩
    rcases trigger_missing_dependencies_spec b fuel fuel h
        (w.emit (Event.handlerStart h g)) g with ⟨t1, ht1, hem1, hge1, hlen1⟩
    rw [hr] at ht1 hge1 hlen1
    have ht1b : w1.trace = w.trace ++ ([Event.handlerStart h g] ++ t1) := by
      simpa [World.emit] using ht1
    have hge1b : GExt g g1 := hge1
    have hlen1b : w1.states.length = w.states.length := by simpa [World.emit] using hlen1
    have hem1b : Emits g ([Event.handlerStart h g] ++ t1) :=
      Emits_append (Emits_single_snap (GExt_refl g) (Event.handlerStart h g) rfl rfl) hem1
    cases ok1 with
    | false =>
      refine ⟨[Event.handlerStart h g] ++ t1, ?_, hem1b, ?_, ?_⟩
      · simpa [handle_error_handlers, hr, set_pin_value_trace] using ht1b
      · simpa [handle_error_handlers, hr] using hge1b
      · simpa [handle_error_handlers, hr, set_pin_value_states] using hlen1b
    | true =>
      rcases hr2 : run_node_logic_only b h w1 g1 with ⟨res, w2, g2⟩
      rcases run_node_logic_only_spec b h w1 g1 with ⟨t2, ht2, hem2, hge2, hlen2⟩
      rw [hr2] at ht2 hge2 hlen2
      have ht2b : w2.trace = w1.trace ++ t2 := ht2
      have hge2b : GExt g g2 := GExt_trans g1 hge1b hge2
      have hlen2b : w2.states.length = w1.states.length := hlen2
      have hem2b : Emits g t2 := Emits_weaken hge1b hem2
      cases res with
      | error e =>
        refine ⟨[Event.handlerStart h g] ++ t1 ++ t2, ?_, Emits_append hem1b hem2b, ?_, ?_⟩
        · simp only [handle_error_handlers, hr, hr2]
          simp [set_pin_value_trace, ht2b, ht1b]
        · simpa [handle_error_handlers, hr, hr2] using hge2b
        · simp only [handle_error_handlers, hr, hr2]
          simp [set_pin_value_states, hlen2b, hlen1b]
      | ok u =>
        rcases hr3 : handle_error_succ_loop b fuel ctxId h fuel
            ((get_connected_exec b w2 fuel h true).reverse) [] w2 g2 with ⟨res3, w3, g3⟩
        rcases handle_error_succ_loop_spec b fuel ctxId h fuel
            ((get_connected_exec b w2 fuel h true).reverse) [] w2 g2 with
          ⟨t3, ht3, hem3, hge3, hlen3⟩
        rw [hr3] at ht3 hge3 hlen3
        have ht3b : w3.trace = w2.trace ++ t3 := ht3
        have hge3b : GExt g g3 := GExt_trans g2 hge2b hge3
        have hlen3b : w3.states.length = w2.states.length := hlen3
        have hem3b : Emits g t3 := Emits_weaken hge2b hem3
        cases res3 with
        | error e =>
          refine ⟨[Event.handlerStart h g] ++ t1 ++ t2 ++ t3, ?_,
            Emits_append (Emits_append hem1b hem2b) hem3b, ?_, ?_⟩
          · simp only [handle_error_handlers, hr, hr2, hr3]
            simp [ht3b, ht2b, ht1b]
          · simpa [handle_error_handlers, hr, hr2, hr3] using hge3b
          · simp only [handle_error_handlers, hr, hr2, hr3]
            simp [hlen3b, hlen2b, hlen1b]
        | ok u2 =>
          rcases ih w3 g3 with ⟨t4, ht4, hem4, hge4, hlen4⟩
          refine ⟨[Event.handlerStart h g] ++ t1 ++ t2 ++ t3 ++ t4, ?_, ?_, ?_, ?_⟩
          · simp only [handle_error_handlers, hr, hr2, hr3]
            simp [ht4, ht3b, ht2b, ht1b]
          · exact Emits_append (Emits_append (Emits_append hem1b hem2b) hem3b)
              (Emits_weaken hge3b hem4)
          · simpa [handle_error_handlers, hr, hr2, hr3] using GExt_trans g3 hge3b hge4
          · simp only [handle_error_handlers, hr, hr2, hr3]
            simp [hlen4, hlen3b, hlen2b, hlen1b]

theorem handle_error_pre_trace (b : Board) (n : Nat) (err : String) (w : World) (g : Guard) :
    (handle_error_pre b n err w g).trace = w.trace ++ [Event.handleErrorStart n g] := by
  simp [handle_error_pre, set_pin_value_trace, activate_exec_pin_trace, World.emit]

theorem handle_error_pre_states (b : Board) (n : Nat) (err : String) (w : World) (g : Guard) :
    (handle_error_pre b n err w g).states = w.states := by
  simp [handle_error_pre, set_pin_value_states, activate_exec_pin_states, World.emit]

/-- Emission/guard/state discipline of `handle_error`. -/
theorem handle_error_spec (b : Board) (fuel : Nat) (n : Nat) (err : String) (w : World)
    (g : Guard) :
    ∃ t, (handle_error b fuel n err w g).2.1.trace = w.trace ++ t ∧
      Emits g t ∧ GExt g (handle_error b fuel n err w g).2.2 ∧
      (handle_error b fuel n err w g).2.1.states.length = w.states.length := by
  unfold handle_error
  rcases hge0 : get_error_handled_nodes b (handle_error_pre b n err w g) fuel n with
    e | connected
  · refine ⟨[Event.handleErrorStart n g,
      Event.log ("Failed to get error handling nodes: " ++ e) LogLevel.error], ?_, ?_, ?_, ?_⟩
    · simp [hge0, World.emit, handle_error_pre_trace]
    · exact Emits_append
        (Emits_single_snap (GExt_refl g) (Event.handleErrorStart n g) rfl rfl)
        (Emits_single_log g _ _)
    · simp [hge0, GExt_refl]
    · simp [hge0, World.emit, handle_error_pre_states]
  · by_cases hce : connected.isEmpty
    · refine ⟨[Event.handleErrorStart n g,
        Event.log ("No error handling nodes found for: " ++ (b.nodeD n).id) LogLevel.error],
        ?_, ?_, ?_, ?_⟩
      · simp [hge0, hce, World.emit, handle_error_pre_trace]
      · exact Emits_append
          (Emits_single_snap (GExt_refl g) (Event.handleErrorStart n g) rfl rfl)
          (Emits_single_log g _ _)
      · simp [hge0, hce, GExt_refl]
      · simp [hge0, hce, World.emit, handle_error_pre_states]
    · rcases hr : handle_error_handlers b fuel (b.nodeD n).id connected
          (handle_error_pre b n err w g) g with ⟨res, w1, g1⟩
      rcases handle_error_handlers_spec b fuel (b.nodeD n).id connected
          (handle_error_pre b n err w g) g with ⟨t1, ht1, hem1, hge1, hlen1⟩
      rw [hr] at ht1 hge1 hlen1
      have ht1b : w1.trace = w.trace ++ ([Event.handleErrorStart n g] ++ t1) := by
        have := ht1
        rw [handle_error_pre_trace] at this
        simpa using this
      have hge1b : GExt g g1 := hge1
      have hlen1b : w1.states.length = w.states.length := by
        have := hlen1
        rw [handle_error_pre_states] at this
        exact this
      have hem1b : Emits g ([Event.handleErrorStart n g] ++ t1) :=
        Emits_append (Emits_single_snap (GExt_refl g) (Event.handleErrorStart n g) rfl rfl) hem1
      cases res with
      | error e =>
        refine ⟨[Event.handleErrorStart n g] ++ t1, ?_, hem1b, ?_, ?_⟩
        · simpa [hge0, hce, hr] using ht1b
        · simpa [hge0, hce, hr] using hge1b
        · simpa [hge0, hce, hr] using hlen1b
      | ok u =>
        refine ⟨[Event.handleErrorStart n g] ++ t1, ?_, hem1b, ?_, ?_⟩
        · simpa [hge0, hce, hr, World.setState] using ht1b
        · simpa [hge0, hce, hr] using hge1b
        · simpa [hge0, hce, hr, World.setState] using hlen1b

/-- Every error produced by the error-chain successor walk is
`ExecutionFailed(ctxId)`. -/
theorem handle_error_succ_loop_err (b : Board) (fuel : Nat) (ctxId : String) (handlerN : Nat) :
    ∀ (lf : Nat) (stack : List ExecutionTarget) (seen : List Nat) (w : World) (g : Guard)
      (e : InternalNodeError),
    (handle_error_succ_loop b fuel ctxId handlerN lf stack seen w g).1 = Except.error e →
    e = InternalNodeError.ExecutionFailed ctxId := by
  intro lf
  induction lf with
  | zero =>
    intro stack seen w g e h
    by_cases hs : stack.isEmpty <;> simp [handle_error_succ_loop, hs] at h
    exact h.symm
  | succ lf ih =>
    intro stack seen w g e h
    match stack with
    | [] => simp [handle_error_succ_loop] at h
    | next :: rest =>
      by_cases hs : next.node ∈ seen
      · exact ih rest seen w g e (by simpa [handle_error_succ_loop, hs] using h)
      · rcases hr : trigger_missing_dependencies b fuel fuel next.node
            (w.emit (Event.errSuccStart next.node g)) g with ⟨ok1, w1, g1⟩
        cases ok1 with
        | false =>
          simp [handle_error_succ_loop, hs, hr] at h
          exact h.symm
        | true =>
          rcases hr2 : run_node_logic_only b next.node w1 g1 with ⟨res, w2, g2⟩
          cases res with
          | error e2 =>
            simp [handle_error_succ_loop, hs, hr, hr2] at h
            exact h.symm
          | ok u =>
            exact ih ((get_connected_exec b w2 fuel next.node true).reverse ++ rest)
              (next.node :: seen) w2 g2 e
              (by simpa [handle_error_succ_loop, hs, hr, hr2] using h)

/-- Every error produced by the handler loop is `ExecutionFailed(ctxId)`. -/
theorem handle_error_handlers_err (b : Board) (fuel : Nat) (ctxId : String) :
    ∀ (hs : List Nat) (w : World) (g : Guard) (e : InternalNodeError),
    (handle_error_handlers b fuel ctxId hs w g).1 = Except.error e →
    e = InternalNodeError.ExecutionFailed ctxId := by
  intro hs
  induction hs with
  | nil =>
    intro w g e h
    simp [handle_error_handlers] at h
  | cons h0 rest ih =>
    intro w g e h
    rcases hr : trigger_missing_dependencies b fuel fuel h0
        (w.emit (Event.handlerStart h0 g)) g with ⟨ok1, w1, g1⟩
    cases ok1 with
    | false =>
      simp [handle_error_handlers, hr] at h
      exact h.symm
    | true =>
      rcases hr2 : run_node_logic_only b h0 w1 g1 with ⟨res, w2, g2⟩
      cases res with
      | error e2 =>
        simp [handle_error_handlers, hr, hr2] at h
        exact h.symm
      | ok u =>
        rcases hr3 : handle_error_succ_loop b fuel ctxId h0 fuel
            ((get_connected_exec b w2 fuel h0 true).reverse) [] w2 g2 with ⟨res3, w3, g3⟩
        cases res3 with
        | error e3 =>
          have he3 : e3 = InternalNodeError.ExecutionFailed ctxId :=
            handle_error_succ_loop_err b fuel ctxId h0 fuel
              ((get_connected_exec b w2 fuel h0 true).reverse) [] w2 g2 e3
              (by rw [hr3])
          have hee : e3 = e := by
            simpa [handle_error_handlers, hr, hr2, hr3] using h
          rw [← hee, he3]
        | ok u2 =>
          exact ih w3 g3 e (by simpa [handle_error_handlers, hr, hr2, hr3] using h)

/-- Every error produced by `handle_error` is `ExecutionFailed` carrying the
failing node's id. -/
theorem handle_error_err (b : Board) (fuel : Nat) (n : Nat) (err : String) (w : World)
    (g : Guard) (e : InternalNodeError) :
    (handle_error b fuel n err w g).1 = Except.error e →
    e = InternalNodeError.ExecutionFailed (b.nodeD n).id := by
  intro h
  simp only [handle_error] at h
  rcases hge0 : get_error_handled_nodes b (handle_error_pre b n err w g) fuel n with
    e2 | connected
  · rw [hge0] at h
    simp at h
    exact h.symm
  · rw [hge0] at h
    by_cases hce : connected.isEmpty
    · simp [hce] at h
      exact h.symm
    · rcases hr : handle_error_handlers b fuel (b.nodeD n).id connected
          (handle_error_pre b n err w g) g with ⟨res, w1, g1⟩
      cases res with
      | error e3 =>
        have he3 := handle_error_handlers_err b fuel (b.nodeD n).id connected
          (handle_error_pre b n err w g) g e3 (by rw [hr])
        have hee : e3 = e := by simpa [hce, hr] using h
        rw [← hee, he3]
      | ok u => simp [hce, hr] at h

/-- When the handler loop completes successfully, every handler in the list
was started (its `handlerStart` event is in the final trace). -/
theorem handle_error_handlers_ok_started (b : Board) (fuel : Nat) (ctxId : String) :
    ∀ (hs : List Nat) (w : World) (g : Guard) (w1 : World) (g1 : Guard),
    handle_error_handlers b fuel ctxId hs w g = (Except.ok (), w1, g1) →
    ∀ h ∈ hs, ∃ gh, Event.handlerStart h gh ∈ w1.trace := by
  intro hs
  induction hs with
  | nil =>
    intro w g w1 g1 heq h hmem
    exact absurd hmem (List.not_mem_nil h)
  | cons h0 rest ih =>
    intro w g w1 g1 heq h hmem
    rcases hr : trigger_missing_dependencies b fuel fuel h0
        (w.emit (Event.handlerStart h0 g)) g with ⟨ok1, wa, ga⟩
    cases ok1 with
    | false =>
      simp [handle_error_handlers, hr] at heq
    | true =>
      rcases hr2 : run_node_logic_only b h0 wa ga with ⟨res, wb, gb⟩
      cases res with
      | error e2 =>
        simp [handle_error_handlers, hr, hr2] at heq
      | ok u =>
        rcases hr3 : handle_error_succ_loop b fuel ctxId h0 fuel
            ((get_connected_exec b wb fuel h0 true).reverse) [] wb gb with ⟨res3, wc, gc⟩
        cases res3 with
        | error e3 =>
          simp [handle_error_handlers, hr, hr2, hr3] at heq
        | ok u2 =>
          have hrec : handle_error_handlers b fuel ctxId rest wc gc = (Except.ok (), w1, g1) := by
            simpa [handle_error_handlers, hr, hr2, hr3] using heq
          rcases List.mem_cons.mp hmem with rfl | hmem2
          · -- the head handler: its start event survives to the final trace
            have hmem0 : Event.handlerStart h g ∈ wa.trace := by
              rcases trigger_missing_dependencies_spec b fuel fuel h
                  (w.emit (Event.handlerStart h g)) g with ⟨t1, ht1, -, -, -⟩
              rw [hr] at ht1
              have ht1b : wa.trace = (w.emit (Event.handlerStart h g)).trace ++ t1 := ht1
              rw [ht1b, emit_trace]
              simp
            have hmem1 : Event.handlerStart h g ∈ wb.trace := by
              rcases run_node_logic_only_spec b h wa ga with ⟨t2, ht2, -, -, -⟩
              rw [hr2] at ht2
              have ht2b : wb.trace = wa.trace ++ t2 := ht2
              rw [ht2b]
              exact List.mem_append_left _ hmem0
            have hmem2 : Event.handlerStart h g ∈ wc.trace := by
              rcases handle_error_succ_loop_spec b fuel ctxId h fuel
                  ((get_connected_exec b wb fuel h true).reverse) [] wb gb with ⟨t3, ht3, -, -, -⟩
              rw [hr3] at ht3
              have ht3b : wc.trace = wb.trace ++ t3 := ht3
              rw [ht3b]
              exact List.mem_append_left _ hmem1
            have hmem3 : Event.handlerStart h g ∈ w1.trace := by
              rcases handle_error_handlers_spec b fuel ctxId rest wc gc with ⟨t4, ht4, -, -, -⟩
              rw [hrec] at ht4
              have ht4b : w1.trace = wc.trace ++ t4 := ht4
              rw [ht4b]
              exact List.mem_append_left _ hmem2
            exact ⟨g, hmem3⟩
          · exact ih wc gc w1 g1 hrec h hmem2

/-- Discipline of the trigger successor walk: the trace only grows, the new
`succStart` events (a) always record the fresh guard `none`, (b) name
pairwise-distinct nodes, and (c) never name a node already in `seen`. -/
theorem trigger_succ_loop_spec (b : Board) (fuel : Nat) (rootId : String) :
    ∀ (lf : Nat) (stack : List ExecutionTarget) (seen : List Nat) (w : World),
    ∃ t, (trigger_succ_loop b fuel rootId lf stack seen w).2.trace = w.trace ++ t ∧
      (∀ m gm, Event.succStart m gm ∈ t → gm = none) ∧
      (succNodes t).Nodup ∧
      (∀ m ∈ succNodes t, m ∉ seen) := by
  intro lf
  induction lf with
  | zero =>
    intro stack seen w
    refine ⟨[], by simp [trigger_succ_loop], ?_, ?_, ?_⟩ <;> simp [succNodes]
  | succ lf ih =>
    intro stack seen w
    match stack with
    | [] =>
      refine ⟨[], by simp [trigger_succ_loop], ?_, ?_, ?_⟩ <;> simp [succNodes]
    | next :: rest =>
      by_cases hs : next.node ∈ seen
      · simpa [trigger_succ_loop, hs] using ih rest seen w
      · rcases hr : trigger_missing_dependencies b fuel fuel next.node
            (w.emit (Event.succStart next.node none)) none with ⟨ok1, w1, g1⟩
        rcases trigger_missing_dependencies_spec b fuel fuel next.node
            (w.emit (Event.succStart next.node none)) none with ⟨t1, ht1, hem1, -, -⟩
        rw [hr] at ht1
        have ht1b : w1.trace = w.trace ++ ([Event.succStart next.node none] ++ t1) := by
          simpa [World.emit] using ht1
        have hnos1 : ∀ ev ∈ t1, succNode? ev = none := hem1.1
        cases ok1 with
        | false =>
          rcases hr2 : handle_error b fuel next.node
              "Failed to trigger successor dependencies" w1 g1 with ⟨hres, w2, g2⟩
          rcases handle_error_spec b fuel next.node
              "Failed to trigger successor dependencies" w1 g1 with ⟨t2, ht2, hem2, -, -⟩
          rw [hr2] at ht2
          have ht2b : w2.trace = w1.trace ++ t2 := ht2
          have hnos2 : ∀ ev ∈ t2, succNode? ev = none := hem2.1
          have hkey : ∀ res2 : Except InternalNodeError Unit,
              ∃ t, w2.trace = w.trace ++ t ∧
                (∀ m gm, Event.succStart m gm ∈ t → gm = none) ∧
                (succNodes t).Nodup ∧ (∀ m ∈ succNodes t, m ∉ seen) := by
            intro _
            refine ⟨[Event.succStart next.node none] ++ t1 ++ t2, ?_, ?_, ?_, ?_⟩
            · rw [ht2b, ht1b]
              simp
            · intro m gm hmem
              rcases List.mem_append.mp hmem with hmem | hmem
              · rcases List.mem_append.mp hmem with hmem | hmem
                · rcases List.mem_singleton.mp hmem with heq
                  cases heq
                  rfl
                · have := hnos1 _ hmem
                  simp [succNode?] at this
              · have := hnos2 _ hmem
                simp [succNode?] at this
            · have h1 : succNodes ([Event.succStart next.node none] ++ t1 ++ t2) =
                  [next.node] := by
                simp only [succNodes, List.filterMap_append]
                rw [List.filterMap_eq_nil_iff.mpr hnos1, List.filterMap_eq_nil_iff.mpr hnos2]
                simp [succNode?]
              rw [h1]
              simp
            · intro m hm
              have h1 : succNodes ([Event.succStart next.node none] ++ t1 ++ t2) =
                  [next.node] := by
                simp only [succNodes, List.filterMap_append]
                rw [List.filterMap_eq_nil_iff.mpr hnos1, List.filterMap_eq_nil_iff.mpr hnos2]
                simp [succNode?]
              rw [h1] at hm
              rcases List.mem_singleton.mp hm with rfl
              exact hs
          rcases hkey (Except.ok ()) with ⟨t, ht, ha, hb, hc⟩
          cases hres with
          | error e =>
            exact ⟨t, by simpa [trigger_succ_loop, hs, hr, hr2] using ht, ha, hb, hc⟩
          | ok u =>
            exact ⟨t, by simpa [trigger_succ_loop, hs, hr, hr2] using ht, ha, hb, hc⟩
        | true =>
          rcases hr2 : run_node_logic_only b next.node w1 g1 with ⟨res, w2, g2⟩
          rcases run_node_logic_only_spec b next.node w1 g1 with ⟨t2, ht2, hem2, -, -⟩
          rw [hr2] at ht2
          have ht2b : w2.trace = w1.trace ++ t2 := ht2
          have hnos2 : ∀ ev ∈ t2, succNode? ev = none := hem2.1
          cases res with
          | error e =>
            refine ⟨[Event.succStart next.node none] ++ t1 ++ t2, ?_, ?_, ?_, ?_⟩
            · simp only [trigger_succ_loop, hs, hr, hr2, if_false]
              rw [set_pin_value_trace, activate_exec_pin_trace, ht2b, ht1b]
              simp
            · intro m gm hmem
              rcases List.mem_append.mp hmem with hmem | hmem
              · rcases List.mem_append.mp hmem with hmem | hmem
                · rcases List.mem_singleton.mp hmem with heq
                  cases heq
                  rfl
                · have := hnos1 _ hmem
                  simp [succNode?] at this
              · have := hnos2 _ hmem
                simp [succNode?] at this
            · have h1 : succNodes ([Event.succStart next.node none] ++ t1 ++ t2) =
                  [next.node] := by
                simp only [succNodes, List.filterMap_append]
                rw [List.filterMap_eq_nil_iff.mpr hnos1, List.filterMap_eq_nil_iff.mpr hnos2]
                simp [succNode?]
              rw [h1]
              simp
            · intro m hm
              have h1 : succNodes ([Event.succStart next.node none] ++ t1 ++ t2) =
                  [next.node] := by
                simp only [succNodes, List.filterMap_append]
                rw [List.filterMap_eq_nil_iff.mpr hnos1, List.filterMap_eq_nil_iff.mpr hnos2]
                simp [succNode?]
              rw [h1] at hm
              rcases List.mem_singleton.mp hm with rfl
              exact hs
          | ok u =>
            rcases ih ((get_connected_exec b w2 fuel next.node true).reverse ++ rest)
                (next.node :: seen) w2 with ⟨t3, ht3, ha3, hb3, hc3⟩
            refine ⟨[Event.succStart next.node none] ++ t1 ++ t2 ++ t3, ?_, ?_, ?_, ?_⟩
            · simp only [trigger_succ_loop, hs, hr, hr2, if_false]
              rw [ht3, ht2b, ht1b]
              simp
            · intro m gm hmem
              rcases List.mem_append.mp hmem with hmem | hmem
              · rcases List.mem_append.mp hmem with hmem | hmem
                · rcases List.mem_append.mp hmem with hmem | hmem
                  · rcases List.mem_singleton.mp hmem with heq
                    cases heq
                    rfl
                  · have := hnos1 _ hmem
                    simp [succNode?] at this
                · have := hnos2 _ hmem
                  simp [succNode?] at this
              · exact ha3 m gm hmem
            · have h1 : succNodes ([Event.succStart next.node none] ++ t1 ++ t2 ++ t3) =
                  next.node :: succNodes t3 := by
                simp only [succNodes, List.filterMap_append]
                rw [List.filterMap_eq_nil_iff.mpr hnos1, List.filterMap_eq_nil_iff.mpr hnos2]
                simp [succNode?]
              rw [h1]
              refine List.Nodup.cons ?_ hb3
              intro hcon
              exact (hc3 next.node hcon) (List.mem_cons_self next.node seen)
            · intro m hm
              have h1 : succNodes ([Event.succStart next.node none] ++ t1 ++ t2 ++ t3) =
                  next.node :: succNodes t3 := by
                simp only [succNodes, List.filterMap_append]
                rw [List.filterMap_eq_nil_iff.mpr hnos1, List.filterMap_eq_nil_iff.mpr hnos2]
                simp [succNode?]
              rw [h1] at hm
              rcases List.mem_cons.mp hm with rfl | hm2
              · exact hs
              · intro hcon
                exact (hc3 m hm2) (List.mem_cons_of_mem next.node hcon)

/-- Soundness of the inner pure-parent walk: when the stack only holds
reachable pins, every collected node is pure and owns a reachable pin. -/
theorem pure_walk_sound (b : Board) (n : Nat) :
    ∀ (fuel : Nat) (stack visited acc : List Nat),
    (∀ s ∈ stack, PReach b n s) →
    (∀ m ∈ acc, b.is_pure m = true ∧
      ∃ q qd, PReach b n q ∧ b.pin? q = some qd ∧ qd.node = some m) →
    ∀ m ∈ pure_walk b fuel stack visited acc,
      b.is_pure m = true ∧
      ∃ q qd, PReach b n q ∧ b.pin? q = some qd ∧ qd.node = some m := by
  intro fuel
  induction fuel with
  | zero =>
    intro stack visited acc hstack hacc m hm
    exact hacc m (by simpa [pure_walk] using hm)
  | succ fuel ih =>
    intro stack visited acc hstack hacc m hm
    match stack with
    | [] => exact hacc m (by simpa [pure_walk] using hm)
    | d :: rest =>
      have hd : PReach b n d := hstack d (List.mem_cons_self d rest)
      have hrest : ∀ s ∈ rest, PReach b n s :=
        fun s hsm => hstack s (List.mem_cons_of_mem d hsm)
      rcases hb : b.pin? d with _ | pd
      · exact ih rest visited acc hrest hacc m (by simpa [pure_walk, hb] using hm)
      · by_cases hv : d ∈ visited
        · exact ih rest visited acc hrest hacc m (by simpa [pure_walk, hb, hv] using hm)
        · rcases hnode : pd.node with _ | parent
          · refine ih (pd.depends_on.reverse ++ rest) (d :: visited) acc ?_ hacc m
              (by simpa [pure_walk, hb, hv, hnode] using hm)
            intro s hsm
            rcases List.mem_append.mp hsm with hsm | hsm
            · exact PReach.relay d pd s hd hb hnode (List.mem_reverse.mp hsm)
            · exact hrest s hsm
          · by_cases hp : b.is_pure parent
            · refine ih rest (d :: visited) (acc ++ [parent]) hrest ?_ m
                (by simpa [pure_walk, hb, hv, hnode, hp] using hm)
              intro m2 hm2
              rcases List.mem_append.mp hm2 with hm2 | hm2
              · exact hacc m2 hm2
              · rcases List.mem_singleton.mp hm2 with rfl
                exact ⟨hp, d, pd, hd, hb, hnode⟩
            · exact ih rest (d :: visited) acc hrest hacc m
                (by simpa [pure_walk, hb, hv, hnode, hp] using hm)

/-- Soundness of the per-pin loop of the pure-parent resolver. -/
theorem pure_parents_pins_sound (b : Board) (n : Nat) (fuel : Nat) :
    ∀ (l : List Nat), (∀ i ∈ l, i ∈ (b.nodeD n).pins) →
    ∀ m ∈ pure_parents_pins b fuel l,
      b.is_pure m = true ∧
      ∃ q qd, PReach b n q ∧ b.pin? q = some qd ∧ qd.node = some m := by
  intro l
  induction l with
  | nil =>
    intro _ m hm
    simp [pure_parents_pins] at hm
  | cons i rest ih =>
    intro hsub m hm
    have hsubr : ∀ j ∈ rest, j ∈ (b.nodeD n).pins :=
      fun j hj => hsub j (List.mem_cons_of_mem i hj)
    rcases hb : b.pin? i with _ | pd
    · exact ih hsubr m (by simpa [pure_parents_pins, hb] using hm)
    · by_cases hc : pd.pin_type == PinType.input && pd.data_type != VariableType.execution
      · have hm2 : m ∈ pure_walk b fuel pd.depends_on.reverse [] [] ++
            pure_parents_pins b fuel rest := by
          simpa [pure_parents_pins, hb, hc] using hm
        rcases List.mem_append.mp hm2 with hm3 | hm3
        · refine pure_walk_sound b n fuel pd.depends_on.reverse [] [] ?_ ?_ m hm3
          · intro s hsm
            have hty : pd.pin_type = PinType.input ∧ pd.data_type ≠ VariableType.execution := by
              constructor
              · exact beq_iff_eq.mp (Bool.and_elim_left hc)
              · exact bne_iff_ne.mp (Bool.and_elim_right hc)
            exact PReach.seed i pd s (hsub i (List.mem_cons_self i rest)) hb hty.1 hty.2
              (List.mem_reverse.mp hsm)
          · intro m2 hm4
            simp at hm4
        · exact ih hsubr m hm3
      · exact ih hsubr m (by simpa [pure_parents_pins, hb, hc] using hm)

/-- Lemma: `dedup_keep_first` yields nodup output avoiding `seen`. -/
theorem dedup_keep_first_nodup :
    ∀ (l seen : List Nat),
    (dedup_keep_first seen l).Nodup ∧ ∀ x ∈ dedup_keep_first seen l, x ∉ seen := by
  intro l
  induction l with
  | nil => intro seen; simp [dedup_keep_first]
  | cons x xs ih =>
    intro seen
    by_cases hx : x ∈ seen
    · simpa [dedup_keep_first, hx] using ih seen
    · rcases ih (x :: seen) with ⟨hnd, hout⟩
      refine ⟨?_, ?_⟩
      · simp only [dedup_keep_first, hx, if_neg hx]
        refine List.Nodup.cons ?_ hnd
        intro hcon
        exact (hout x hcon) (List.mem_cons_self x seen)
      · intro y hy
        simp only [dedup_keep_first, hx, if_neg hx] at hy
        rcases List.mem_cons.mp hy with rfl | hy2
        · exact hx
        · intro hcon
          exact (hout y hy2) (List.mem_cons_of_mem x hcon)

/-- Membership in `dedup_keep_first` implies membership in the original list. -/
theorem mem_dedup_keep_first :
    ∀ (l seen : List Nat) (x : Nat), x ∈ dedup_keep_first seen l → x ∈ l := by
  intro l
  induction l with
  | nil => intro seen x hx; simp [dedup_keep_first] at hx
  | cons y ys ih =>
    intro seen x hx
    by_cases hy : y ∈ seen
    · simp only [dedup_keep_first, if_pos hy] at hx
      exact List.mem_cons_of_mem y (ih seen x hx)
    · simp only [dedup_keep_first, if_neg hy] at hx
      rcases List.mem_cons.mp hx with rfl | hx2
      · exact List.mem_cons_self x ys
      · exact List.mem_cons_of_mem y (ih (y :: seen) x hx2)

/-- The `depends_on` scan of `is_ready` for an execution pin: with all
upstreams live it collects whether any upstream carries a value. -/
theorem is_ready_deps_exec (b : Board) (w : World) :
    ∀ (l : List Nat) (ev : Bool), (∀ d ∈ l, (b.pin? d).isSome) →
    is_ready_deps b w true l ev =
      Except.ok (ReadyStep.cont (ev || l.any (fun d => (w.pinVal d).isSome))) := by
  intro l
  induction l with
  | nil => intro ev _; simp [is_ready_deps]
  | cons d rest ih =>
    intro ev hlive
    have hd : (b.pin? d).isSome := hlive d (List.mem_cons_self d rest)
    rcases hb : b.pin? d with _ | pd
    · rw [hb] at hd; simp at hd
    · have := ih (ev || (w.pinVal d).isSome)
        (fun x hx => hlive x (List.mem_cons_of_mem d hx))
      simp [is_ready_deps, hb, this, Bool.or_assoc]

/-- The `depends_on` scan of `is_ready` for a non-execution pin: with all
upstreams live it fails as soon as any upstream lacks a value. -/
theorem is_ready_deps_nonexec (b : Board) (w : World) :
    ∀ (l : List Nat) (ev : Bool), (∀ d ∈ l, (b.pin? d).isSome) →
    is_ready_deps b w false l ev =
      (if l.all (fun d => (w.pinVal d).isSome) then
        Except.ok (ReadyStep.cont (ev || l.any (fun d => (w.pinVal d).isSome)))
      else Except.ok ReadyStep.fail) := by
  intro l
  induction l with
  | nil => intro ev _; simp [is_ready_deps]
  | cons d rest ih =>
    intro ev hlive
    have hd : (b.pin? d).isSome := hlive d (List.mem_cons_self d rest)
    rcases hb : b.pin? d with _ | pd
    · rw [hb] at hd; simp at hd
    · have hih := ih (ev || (w.pinVal d).isSome)
        (fun x hx => hlive x (List.mem_cons_of_mem d hx))
      by_cases hv : (w.pinVal d).isSome
      · have hvf : (w.pinVal d).isNone = false := by
          cases hx : w.pinVal d
          · rw [hx] at hv; simp at hv
          · simp
        simp only [is_ready_deps, hb, hvf, Bool.false_and, Bool.false_eq_true, if_false]
        rw [hih]
        simp [hv]
      · have hvn : (w.pinVal d).isNone = true := by
          cases hx : w.pinVal d <;> simp_all
        simp [is_ready_deps, hb, hvn, hv]

/-- The pin loop of `is_ready` agrees with the amended satisfiability
predicate whenever every referenced upstream pin is live. -/
theorem is_ready_pins_iff (b : Board) (w : World) :
    ∀ (l : List Nat),
    (∀ i ∈ l, ∀ pd, b.pin? i = some pd → pd.pin_type = PinType.input →
      ∀ d ∈ pd.depends_on, (b.pin? d).isSome) →
    (is_ready_pins b w l = Except.ok true ↔
      l.all (fun i =>
        match b.pin? i with
        | some pd =>
          if pd.pin_type == PinType.input then amended_pin_satisfiable w pd else true
        | none => true) = true) := by
  intro l
  induction l with
  | nil => intro _; simp [is_ready_pins]
  | cons i rest ih =>
    intro hlive
    have hliver : ∀ j ∈ rest, ∀ pd, b.pin? j = some pd → pd.pin_type = PinType.input →
        ∀ d ∈ pd.depends_on, (b.pin? d).isSome :=
      fun j hj => hlive j (List.mem_cons_of_mem i hj)
    have ihr := ih hliver
    rcases hb : b.pin? i with _ | pd
    · simpa [is_ready_pins, hb] using ihr
    · by_cases hty : pd.pin_type = PinType.input
      · have hdl : ∀ d ∈ pd.depends_on, (b.pin? d).isSome :=
          hlive i (List.mem_cons_self i rest) pd hb hty
        by_cases hempty : pd.depends_on.isEmpty ∧ pd.default_value.isNone
        · have h1 : pd.depends_on = [] := by
            cases hx : pd.depends_on
            · rfl
            · rw [hx] at hempty; simp at hempty
          have h2 : pd.default_value = none := by
            cases hx : pd.default_value
            · rfl
            · rw [hx] at hempty; simp at hempty
          simp [is_ready_pins, hb, hty, h1, h2, amended_pin_satisfiable]
        · have hne : (pd.depends_on.isEmpty && pd.default_value.isNone) = false := by
            rcases hx : pd.depends_on with _ | ⟨d0, ds⟩
            · rcases hy : pd.default_value with _ | v
              · exact absurd ⟨by simp [hx], by simp [hy]⟩ hempty
              · simp [hy]
            · simp [hx]
          have hfirst : (!pd.depends_on.isEmpty || pd.default_value.isSome) = true := by
            rcases hx : pd.depends_on with _ | ⟨d0, ds⟩
            · rcases hy : pd.default_value with _ | v
              · exact absurd ⟨by simp [hx], by simp [hy]⟩ hempty
              · simp [hy]
            · simp [hx]
          by_cases hexec : pd.data_type = VariableType.execution
          · by_cases hany : pd.depends_on.any (fun d => (w.pinVal d).isSome)
            · rw [is_ready_pins]
              simp only [hb]
              rw [if_neg (by simp [hty])]
              rw [if_neg (by simp [hne])]
              simp only [hexec, beq_self_eq_true]
              rw [is_ready_deps_exec b w pd.depends_on false hdl]
              simp [List.all_cons, hb, hty, amended_pin_satisfiable, hexec, hfirst, hany, ihr]
            · have hanyf : (pd.depends_on.any fun d => (w.pinVal d).isSome) = false := by
                simpa using hany
              rw [is_ready_pins]
              simp only [hb]
              rw [if_neg (by simp [hty])]
              rw [if_neg (by simp [hne])]
              simp only [hexec, beq_self_eq_true]
              rw [is_ready_deps_exec b w pd.depends_on false hdl]
              simp [List.all_cons, hb, hty, amended_pin_satisfiable, hexec, hanyf]
          · have hexecf : (pd.data_type == VariableType.execution) = false := by
              simp [beq_iff_eq, hexec]
            by_cases hall : pd.depends_on.all (fun d => (w.pinVal d).isSome)
            · rw [is_ready_pins]
              simp only [hb]
              rw [if_neg (by simp [hty])]
              rw [if_neg (by simp [hne])]
              simp only [hexecf]
              rw [is_ready_deps_nonexec b w pd.depends_on false hdl]
              simp [List.all_cons, hb, hty, amended_pin_satisfiable, hexec, hexecf, hfirst, hall, ihr]
            · have hallf : (pd.depends_on.all fun d => (w.pinVal d).isSome) = false := by
                simpa using hall
              rw [is_ready_pins]
              simp only [hb]
              rw [if_neg (by simp [hty])]
              rw [if_neg (by simp [hne])]
              simp only [hexecf]
              rw [is_ready_deps_nonexec b w pd.depends_on false hdl]
              simp [List.all_cons, hb, hty, amended_pin_satisfiable, hexec, hexecf, hallf]
      · have hty2 : (pd.pin_type == PinType.input) = false := by simp [hty]
        rw [is_ready_pins]
        simp only [hb]
        rw [if_pos (by simp [hty])]
        simp only [List.all_cons, hb, hty2]
        simpa using ihr

/-- A dangling reference anywhere on the stack makes a strict walk error. -/
theorem strict_walk_dangling (b : Board) (edges : PinData → List Nat) :
    ∀ (fuel : Nat) (stack visited seen acc : List Nat) (d : Nat),
    d ∈ stack → b.pin? d = none →
    exceptErr (strict_walk b edges fuel stack visited seen acc) = true := by
  intro fuel
  induction fuel with
  | zero =>
    intro stack visited seen acc d hd hnone
    have : ¬stack.isEmpty := by
      cases stack
      · simp at hd
      · simp
    simp [strict_walk, this, exceptErr]
  | succ fuel ih =>
    intro stack visited seen acc d hd hnone
    match stack with
    | [] => simp at hd
    | p :: rest =>
      rcases hb : b.pin? p with _ | pd
      · simp [strict_walk, hb, exceptErr]
      · have hdr : d ∈ rest := by
          rcases List.mem_cons.mp hd with rfl | hd2
          · rw [hb] at hnone; cases hnone
          · exact hd2
        by_cases hv : p ∈ visited
        · simpa [strict_walk, hb, hv] using ih rest visited seen acc d hdr hnone
        · rcases hnode : pd.node with _ | parent
          · simpa [strict_walk, hb, hv, hnode] using
              ih ((edges pd).reverse ++ rest) (p :: visited) seen acc d
                (List.mem_append_right _ hdr) hnone
          · by_cases hp : parent ∈ seen
            · simpa [strict_walk, hb, hv, hnode, hp] using
                ih rest (p :: visited) seen acc d hdr hnone
            · simpa [strict_walk, hb, hv, hnode, hp] using
                ih rest (p :: visited) (parent :: seen) (acc ++ [parent]) d hdr hnone

/-- The pin loop of `get_dependencies` errors whenever some input pin has a
dangling `depends_on` reference. -/
theorem get_dependencies_pins_dangling (b : Board) (fuel : Nat) :
    ∀ (l seen acc : List Nat) (i : Nat) (pd : PinData) (d : Nat),
    i ∈ l → b.pin? i = some pd → pd.pin_type = PinType.input → d ∈ pd.depends_on →
    b.pin? d = none →
    exceptErr (get_dependencies_pins b fuel seen acc l) = true := by
  intro l
  induction l with
  | nil =>
    intro seen acc i pd d hi _ _ _ _
    simp at hi
  | cons j rest ih =>
    intro seen acc i pd d hi hb hty hd hnone
    rcases List.mem_cons.mp hi with rfl | hir
    · have hsw := strict_walk_dangling b (fun q => q.depends_on) fuel
        pd.depends_on.reverse [] seen acc d (List.mem_reverse.mpr hd) hnone
      rcases hsw2 : strict_walk b (fun q => q.depends_on) fuel pd.depends_on.reverse [] seen acc
        with e | pair
      · simp only [get_dependencies_pins, hb]
        rw [if_pos (by simp [hty])]
        simp [hsw2, exceptErr]
      · rw [hsw2] at hsw
        simp [exceptErr] at hsw
    · rcases hbj : b.pin? j with _ | pdj
      · simpa [get_dependencies_pins, hbj] using ih seen acc i pd d hir hb hty hd hnone
      · by_cases htyj : pdj.pin_type = PinType.input
        · rcases hsw2 : strict_walk b (fun q => q.depends_on) fuel pdj.depends_on.reverse [] seen
            acc with e | pair
          · simp only [get_dependencies_pins, hbj]
            rw [if_pos (by simp [htyj])]
            simp [hsw2, exceptErr]
          · simp only [get_dependencies_pins, hbj]
            rw [if_pos (by simp [htyj])]
            rw [hsw2]
            exact ih pair.2 pair.1 i pd d hir hb hty hd hnone
        · simp only [get_dependencies_pins, hbj]
          rw [if_neg (by simp [htyj])]
          exact ih seen acc i pd d hir hb hty hd hnone

/-- Lemma: `handle_error` always records its invocation: the `handleErrorStart`
event for the failing node is in the resulting trace. -/
theorem handle_error_start_mem (b : Board) (fuel : Nat) (n : Nat) (err : String) (w : World)
    (g : Guard) :
    Event.handleErrorStart n g ∈ (handle_error b fuel n err w g).2.1.trace := by
  unfold handle_error
  rcases hge0 : get_error_handled_nodes b (handle_error_pre b n err w g) fuel n with
    e | connected
  · simp [hge0, World.emit, handle_error_pre_trace]
  · by_cases hce : connected.isEmpty
    · simp [hge0, hce, World.emit, handle_error_pre_trace]
    · rcases hr : handle_error_handlers b fuel (b.nodeD n).id connected
          (handle_error_pre b n err w g) g with ⟨res, w1, g1⟩
      rcases handle_error_handlers_spec b fuel (b.nodeD n).id connected
          (handle_error_pre b n err w g) g with ⟨t1, ht1, -, -, -⟩
      rw [hr] at ht1
      have ht1b : w1.trace = w.trace ++ ([Event.handleErrorStart n g] ++ t1) := by
        have hx : w1.trace = (handle_error_pre b n err w g).trace ++ t1 := ht1
        rw [handle_error_pre_trace] at hx
        simpa using hx
      have hmem : Event.handleErrorStart n g ∈ w1.trace := by
        rw [ht1b]
        simp
      cases res with
      | error e => simpa [hge0, hce, hr] using hmem
      | ok u => simpa [hge0, hce, hr, World.setState] using hmem

/-! Claim C1. -/

/-- C1 counterexample: the claim says a pure data cycle makes `trigger`
return a dedicated `CycleDetected` error kind distinct from
`DependencyFailed`, but on the concrete cyclic board (with the error routed
through a wired handler) `trigger` returns `DependencyFailed("root")`; the
error type of the engine has no `CycleDetected` variant at all. -/
theorem C1_counterexample :
    (trigger cycleBoard 20 0 true cycleWorld none).1 =
      Except.error (InternalNodeError.DependencyFailed "root") := rfl

/-- C1 (amended): whenever the dependency walk fails (in particular when it
detects a cycle, which it reports by logging
"Cycle detected while resolving dependencies" and returning `false`),
`trigger` returns `DependencyFailed` with the root's id when error routing
succeeds, and `ExecutionFailed` with the root's id otherwise — never a
separate `CycleDetected` kind. The walk itself is an explicit-stack loop. -/
theorem C1_theorem (b : Board) (fuel n : Nat) (ws : Bool) (w : World) (g : Guard)
    {w1 : World} {g1 : Guard}
    (hdep : trigger_missing_dependencies b fuel fuel n w g = (false, w1, g1)) :
    (trigger b fuel n ws w g).1 =
      Except.error (InternalNodeError.DependencyFailed (b.nodeD n).id) ∨
    (trigger b fuel n ws w g).1 =
      Except.error (InternalNodeError.ExecutionFailed (b.nodeD n).id) := by
  rcases hhe : handle_error b fuel n "Failed to trigger missing dependencies"
      (w1.emit (Event.log "Failed to trigger missing dependencies" LogLevel.error)) g1 with
    ⟨hres, w2, g2⟩
  cases hres with
  | error e =>
    have he := handle_error_err b fuel n "Failed to trigger missing dependencies"
      (w1.emit (Event.log "Failed to trigger missing dependencies" LogLevel.error)) g1 e
      (by rw [hhe])
    right
    simp [trigger, hdep, hhe, he]
  | ok u =>
    left
    simp [trigger, hdep, hhe]

/-- C1 witness: the amended statement applied to the concrete cyclic board,
whose dependency walk does fail. -/
theorem C1_witness :
    (trigger cycleBoard 20 0 true cycleWorld none).1 =
      Except.error (InternalNodeError.DependencyFailed "root") ∨
    (trigger cycleBoard 20 0 true cycleWorld none).1 =
      Except.error (InternalNodeError.ExecutionFailed "root") :=
  C1_theorem cycleBoard 20 0 true cycleWorld none rfl

/-! Claim C2. -/

/-- C2 counterexample: the claim says every failure in the successor walk is
routed through the error router (the failing node's handlers are fetched and
executed), but when the successor `succ` of `succFailBoard` fails its logic
run, its wired handler is never executed (its state stays `idle`) and the
walk aborts. -/
theorem C2_counterexample :
    (trigger succFailBoard 20 0 true succFailWorld none).1 =
      Except.error (InternalNodeError.ExecutionFailed "root") ∧
    (trigger succFailBoard 20 0 true succFailWorld none).2.1.stateOf 2 = NodeState.idle :=
  ⟨rfl, rfl⟩

/-- C2 (amended): in the successor walk, a failed *dependency* run of a
popped successor is routed through `handle_error` (the router is invoked on
the successor), but a failed *logic* run is not routed: the walk only
activates the successor's `auto_handle_error` pin, writes the error string,
and aborts with `ExecutionFailed(rootId)`. -/
theorem C2_theorem (b : Board) (fuel lf : Nat) (rootId : String) (next : ExecutionTarget)
    (rest : List ExecutionTarget) (seen : List Nat) (w : World) (hs : next.node ∉ seen) :
    (∀ {w1 : World} {g1 : Guard},
      trigger_missing_dependencies b fuel fuel next.node
        (w.emit (Event.succStart next.node none)) none = (false, w1, g1) →
      Event.handleErrorStart next.node g1 ∈
        (trigger_succ_loop b fuel rootId (lf + 1) (next :: rest) seen w).2.trace)
    ∧ (∀ {w1 : World} {g1 : Guard} {e : InternalNodeError} {w2 : World} {g2 : Guard},
      trigger_missing_dependencies b fuel fuel next.node
        (w.emit (Event.succStart next.node none)) none = (true, w1, g1) →
      run_node_logic_only b next.node w1 g1 = (Except.error e, w2, g2) →
      trigger_succ_loop b fuel rootId (lf + 1) (next :: rest) seen w =
        (Except.error (InternalNodeError.ExecutionFailed rootId),
         set_pin_value b (activate_exec_pin b w2 next.node "auto_handle_error") next.node
           "auto_handle_error_string" (Val.vstr (errString e)))) := by
  constructor
  · intro w1 g1 hdep
    rcases hhe : handle_error b fuel next.node "Failed to trigger successor dependencies" w1 g1
      with ⟨hres, w2, g2⟩
    have hmem : Event.handleErrorStart next.node g1 ∈ w2.trace := by
      have := handle_error_start_mem b fuel next.node
        "Failed to trigger successor dependencies" w1 g1
      rwa [hhe] at this
    cases hres with
    | error e => simpa [trigger_succ_loop, hs, hdep, hhe] using hmem
    | ok u => simpa [trigger_succ_loop, hs, hdep, hhe] using hmem
  · intro w1 g1 e w2 g2 hdep hrun
    simp [trigger_succ_loop, hs, hdep, hrun]

/-- C2 witness: the no-routing conclusion applied to the concrete
failing-successor board. -/
theorem C2_witness :
    (trigger_succ_loop succFailBoard 20 "root" 4
      [{ node := 1, through_pins := [1] }] [] succFailWorld).1 =
      Except.error (InternalNodeError.ExecutionFailed "root") := by
  have h := (C2_theorem succFailBoard 20 3 "root" { node := 1, through_pins := [1] } [] []
    succFailWorld (by decide)).2 rfl rfl
  rw [h]

/-! Claim C5. -/

/-- C5 counterexample: the claim requires a *truthy* token on some upstream of
an execution input, but `is_ready` only checks that *some value* is present:
on a board whose single exec input sees an upstream carrying `Bool(false)`,
`is_ready` answers true while the spec's satisfiability predicate is false. -/
theorem C5_counterexample :
    is_ready falsyTokenBoard falsyTokenWorld 0 = Except.ok true ∧
    spec_is_ready falsyTokenBoard falsyTokenWorld 0 = false :=
  ⟨rfl, rfl⟩

/-- C5 (amended): when every upstream reference of the node's input pins is
live, `is_ready` returns true iff every input pin has an upstream or a
default, every execution input has at least one referenced upstream carrying
*some* value (truthy or falsy), and every non-execution input has a value on
every referenced upstream. -/
theorem C5_theorem (b : Board) (w : World) (n : Nat) (hlive : deps_live b n = true) :
    is_ready b w n = Except.ok true ↔ amended_is_ready b w n = true := by
  have hlive2 : ∀ i ∈ (b.nodeD n).pins, ∀ pd, b.pin? i = some pd →
      pd.pin_type = PinType.input → ∀ d ∈ pd.depends_on, (b.pin? d).isSome := by
    intro i hi pd hb hty d hd
    have h1 := (List.all_eq_true.mp hlive) i hi
    rw [hb] at h1
    simp [hty] at h1
    exact h1 d hd
  exact is_ready_pins_iff b w (b.nodeD n).pins hlive2

/-- C5 witness: the amended equivalence applied at the concrete falsy-token
board, whose upstream references are all live. -/
theorem C5_witness :
    deps_live falsyTokenBoard 0 = true ∧
    (is_ready falsyTokenBoard falsyTokenWorld 0 = Except.ok true ↔
      amended_is_ready falsyTokenBoard falsyTokenWorld 0 = true) :=
  ⟨rfl, C5_theorem falsyTokenBoard falsyTokenWorld 0 rfl⟩

/-! Claim C6. -/

/-- C6: every node returned by the pure-parent resolver is pure and owns a pin
reached from the target node only through non-exec input pins (traversing
relay pins, never crossing an exec edge), and the returned list has no
duplicate identities. -/
theorem C6_theorem (b : Board) (fuel n : Nat) :
    (∀ m ∈ pure_parents b fuel n,
      b.is_pure m = true ∧
      ∃ q qd, PReach b n q ∧ b.pin? q = some qd ∧ qd.node = some m) ∧
    (pure_parents b fuel n).Nodup := by
  constructor
  · intro m hm
    have hm2 : m ∈ pure_parents_pins b fuel (b.nodeD n).pins := by
      simp only [pure_parents] at hm
      by_cases hlen : (pure_parents_pins b fuel (b.nodeD n).pins).length > 1
      · rw [if_pos hlen] at hm
        exact mem_dedup_keep_first _ [] m hm
      · rwa [if_neg hlen] at hm
    exact pure_parents_pins_sound b n fuel (b.nodeD n).pins (fun i hi => hi) m hm2
  · simp only [pure_parents]
    by_cases hlen : (pure_parents_pins b fuel (b.nodeD n).pins).length > 1
    · rw [if_pos hlen]
      exact (dedup_keep_first_nodup _ []).1
    · rw [if_neg hlen]
      rcases hl : pure_parents_pins b fuel (b.nodeD n).pins with _ | ⟨a, as⟩
      · simp
      · rcases has : as with _ | ⟨c, t⟩
        · simp
        · rw [hl, has] at hlen
          simp at hlen

/-- C6 witness: the soundness statement applied to the cycle board, whose
root has exactly the pure node `a` as parent. -/
theorem C6_witness :
    cycleBoard.is_pure 1 = true ∧ (pure_parents cycleBoard 20 0).Nodup :=
  ⟨((C6_theorem cycleBoard 20 0).1 1 (by decide)).1, (C6_theorem cycleBoard 20 0).2⟩

/-! Claim C9. -/

/-- C9 counterexample: the claim says no traversal errors merely because a
referenced pin was deleted, but `get_dependencies` fails with
"Failed to lock Pin" on a board whose input pin references a deleted pin. -/
theorem C9_counterexample :
    get_dependencies danglingBoard 6 0 = Except.error "Failed to lock Pin" := rfl

/-- C9 (amended): the pure-parent walk and the exec-target walk skip a
dangling weak edge as a dropped edge, whereas `get_dependencies` (like
`get_connected` and `get_error_handled_nodes`, which use the same strict
walk) returns an error as soon as an input pin references a deleted pin. -/
theorem C9_theorem :
    (∀ (b : Board) (fuel : Nat) (d : Nat) (rest visited acc : List Nat),
      b.pin? d = none →
      pure_walk b (fuel + 1) (d :: rest) visited acc = pure_walk b fuel rest visited acc)
    ∧ (∀ (b : Board) (fuel : Nat) (p : Nat) (rest visited : List Nat)
        (groups : List (Nat × List Nat)),
      b.pin? p = none →
      exec_walk b (fuel + 1) (p :: rest) visited groups = exec_walk b fuel rest visited groups)
    ∧ (∀ (b : Board) (fuel : Nat) (n i : Nat) (pd : PinData) (d : Nat),
      i ∈ (b.nodeD n).pins → b.pin? i = some pd → pd.pin_type = PinType.input →
      d ∈ pd.depends_on → b.pin? d = none →
      exceptErr (get_dependencies b fuel n) = true) := by
  refine ⟨?_, ?_, ?_⟩
  · intro b fuel d rest visited acc h
    simp [pure_walk, h]
  · intro b fuel p rest visited groups h
    simp [exec_walk, h]
  · intro b fuel n i pd d hi hb hty hd hnone
    exact get_dependencies_pins_dangling b fuel (b.nodeD n).pins [] [] i pd d hi hb hty hd hnone

/-- C9 witness: the strict-walk error conclusion applied to the dangling
board. -/
theorem C9_witness : exceptErr (get_dependencies danglingBoard 6 0) = true :=
  C9_theorem.2.2 danglingBoard 6 0 0 danglingPin 5 (by decide) rfl rfl (by decide) rfl

/-! Claim C10. -/

/-- C10: calling `run_node_logic_only` on a node whose id is already in the
recursion guard returns `Ok` without invoking the node's logic, and the
node's state is left as `Running` (set at entry, before the guard check;
neither `Success` nor `Error` is ever set). -/
theorem C10_theorem (b : Board) (n : Nat) (w : World) (g : Guard)
    (hmem : (b.nodeD n).id ∈ gval g) (hn : n < w.states.length) :
    (run_node_logic_only b n w g).1 = Except.ok () ∧
    (run_node_logic_only b n w g).2.1.stateOf n = NodeState.running ∧
    (run_node_logic_only b n w g).2.1.pinVals = w.pinVals ∧
    (run_node_logic_only b n w g).2.1.trace =
      w.trace ++ [Event.logicStart n g,
        Event.log ("Recursion detected for: " ++ (b.nodeD n).id) LogLevel.debug] := by
  have hmem2 : (b.nodeD n).id ∈ gval (some (gval g)) := by simpa [gval] using hmem
  refine ⟨?_, ?_, ?_, ?_⟩
  · simp [run_node_logic_only, if_pos hmem2]
  · simp [run_node_logic_only, if_pos hmem2, World.stateOf, World.emit, World.setState,
      List.getElem?_set_self hn]
  · simp [run_node_logic_only, if_pos hmem2, World.emit, World.setState]
  · simp [run_node_logic_only, if_pos hmem2, World.emit, World.setState]

/-- C10 witness: the guarded-skip behavior on the one-node guard board with
its own id pre-inserted in the guard. -/
theorem C10_witness :
    (run_node_logic_only guardBoard 0 guardWorld (some ["x"])).1 = Except.ok () ∧
    (run_node_logic_only guardBoard 0 guardWorld (some ["x"])).2.1.stateOf 0 =
      NodeState.running :=
  have h := C10_theorem guardBoard 0 guardWorld (some ["x"]) (by decide) (by decide)
  ⟨h.1, h.2.1⟩

/-! Claim C3. -/

/-- C3 counterexample: the claim says the returned error names the node that
actually failed — in particular a failing successor's own id — but when
successor `succ` (id "succ") fails, `trigger` returns `ExecutionFailed`
carrying the *root's* id. -/
theorem C3_counterexample :
    (trigger succFailBoard 20 0 true succFailWorld none).1 =
      Except.error (InternalNodeError.ExecutionFailed "root") ∧
    (succFailBoard.nodeD 1).id = "succ" ∧ ("root" : String) ≠ "succ" :=
  ⟨rfl, rfl, by decide⟩

/-- C3 (amended): when the *root's* own logic fails, `trigger` returns
`ExecutionFailed` with the root's id (the failing node); but when a popped
*successor's* logic fails, the walk returns `ExecutionFailed` with the root's
id as well — not the successor's id. -/
theorem C3_theorem :
    (∀ (b : Board) (fuel n : Nat) (ws : Bool) (w : World) (g : Guard) {w1 : World}
      {g1 : Guard} {e : InternalNodeError} {w2 : World} {g2 : Guard},
      trigger_missing_dependencies b fuel fuel n w g = (true, w1, g1) →
      run_node_logic_only b n w1 g1 = (Except.error e, w2, g2) →
      (trigger b fuel n ws w g).1 =
        Except.error (InternalNodeError.ExecutionFailed (b.nodeD n).id))
    ∧ (∀ (b : Board) (fuel lf : Nat) (rootId : String) (next : ExecutionTarget)
        (rest : List ExecutionTarget) (seen : List Nat) (w : World) {w1 : World}
        {g1 : Guard} {e : InternalNodeError} {w2 : World} {g2 : Guard},
      next.node ∉ seen →
      trigger_missing_dependencies b fuel fuel next.node
        (w.emit (Event.succStart next.node none)) none = (true, w1, g1) →
      run_node_logic_only b next.node w1 g1 = (Except.error e, w2, g2) →
      (trigger_succ_loop b fuel rootId (lf + 1) (next :: rest) seen w).1 =
        Except.error (InternalNodeError.ExecutionFailed rootId)) := by
  constructor
  · intro b fuel n ws w g w1 g1 e w2 g2 hdep hrun
    rcases hhe : handle_error b fuel n (errString e) w2 g2 with ⟨hres, w3, g3⟩
    cases hres with
    | error e2 =>
      have he2 := handle_error_err b fuel n (errString e) w2 g2 e2 (by rw [hhe])
      simp [trigger, hdep, hrun, hhe, he2]
    | ok u => simp [trigger, hdep, hrun, hhe]
  · intro b fuel lf rootId next rest seen w w1 g1 e w2 g2 hs hdep hrun
    simp [trigger_succ_loop, hs, hdep, hrun]

/-- C3 witness: the root-failure conclusion applied at the failing root
board. -/
theorem C3_witness :
    (trigger rootFailBoard 20 0 true rootFailWorld none).1 =
      Except.error (InternalNodeError.ExecutionFailed "root") :=
  C3_theorem.1 rootFailBoard 20 0 true rootFailWorld none rfl rfl

/-! Claim C4. -/

/-- C4: when a node's dependencies succeed, its logic fails, and error
routing succeeds (`auto_handle_error` wired and every handler completes),
`trigger` returns `ExecutionFailed` with the failing node's id — not any
handler's id —, the failing node's final state is `Error` (not `Success`),
and every connected handler was executed (its `handlerStart` event is in the
final trace). -/
theorem C4_theorem (b : Board) (fuel n : Nat) (ws : Bool) (w : World) (g : Guard)
    {w1 : World} {g1 : Guard} {e : InternalNodeError} {w2 : World} {g2 : Guard}
    {w3 : World} {g3 : Guard}
    (hn : n < w.states.length)
    (h1 : trigger_missing_dependencies b fuel fuel n w g = (true, w1, g1))
    (h2 : run_node_logic_only b n w1 g1 = (Except.error e, w2, g2))
    (h3 : handle_error b fuel n (errString e) w2 g2 = (Except.ok (), w3, g3)) :
    trigger b fuel n ws w g =
      (Except.error (InternalNodeError.ExecutionFailed (b.nodeD n).id), w3, g3) ∧
    w3.stateOf n = NodeState.error ∧
    ∀ h ∈ handle_error_targets b fuel n (errString e) w2 g2,
      ∃ gh, Event.handlerStart h gh ∈ w3.trace := by
  have hlen2 : w2.states.length = w.states.length := by
    rcases trigger_missing_dependencies_spec b fuel fuel n w g with ⟨-, -, -, -, ha⟩
    rw [h1] at ha
    rcases run_node_logic_only_spec b n w1 g1 with ⟨-, -, -, -, hb⟩
    rw [h2] at hb
    have ha2 : w1.states.length = w.states.length := ha
    have hb2 : w2.states.length = w1.states.length := hb
    rw [hb2, ha2]
  have hmain : ∀ he : handle_error b fuel n (errString e) w2 g2 = (Except.ok (), w3, g3),
      w3.stateOf n = NodeState.error ∧
      ∀ h ∈ handle_error_targets b fuel n (errString e) w2 g2,
        ∃ gh, Event.handlerStart h gh ∈ w3.trace := by
    intro he
    rcases hge : get_error_handled_nodes b (handle_error_pre b n (errString e) w2 g2) fuel n
      with e2 | connected
    · have hcomp : (handle_error b fuel n (errString e) w2 g2).1 =
          Except.error (InternalNodeError.ExecutionFailed (b.nodeD n).id) := by
        simp [handle_error, hge]
      rw [he] at hcomp
      simp at hcomp
    · by_cases hce : connected.isEmpty
      · have hcomp : (handle_error b fuel n (errString e) w2 g2).1 =
            Except.error (InternalNodeError.ExecutionFailed (b.nodeD n).id) := by
          simp [handle_error, hge, hce]
        rw [he] at hcomp
        simp at hcomp
      · rcases hh : handle_error_handlers b fuel (b.nodeD n).id connected
            (handle_error_pre b n (errString e) w2 g2) g2 with ⟨res, wa, ga⟩
        cases res with
        | error e3 =>
          have hcomp : handle_error b fuel n (errString e) w2 g2 =
              (Except.error e3, wa, ga) := by
            simp [handle_error, hge, hce, hh]
          rw [he] at hcomp
          simp at hcomp
        | ok u =>
          have hcomp : handle_error b fuel n (errString e) w2 g2 =
              (Except.ok (), wa.setState n NodeState.error, ga) := by
            simp [handle_error, hge, hce, hh]
          rw [he] at hcomp
          have hw3 : w3 = wa.setState n NodeState.error :=
            congrArg (fun p => p.2.1) hcomp
          have hlena : wa.states.length = w.states.length := by
            rcases handle_error_handlers_spec b fuel (b.nodeD n).id connected
                (handle_error_pre b n (errString e) w2 g2) g2 with ⟨-, -, -, -, hl⟩
            rw [hh] at hl
            have hl2 : wa.states.length =
                (handle_error_pre b n (errString e) w2 g2).states.length := hl
            rw [hl2, handle_error_pre_states, hlen2]
          constructor
          · rw [hw3]
            have hna : n < wa.states.length := by rw [hlena]; exact hn
            simp [World.stateOf, World.setState, List.getElem?_set_self hna]
          · intro h hmem
            have hmem2 : h ∈ connected := by
              have : handle_error_targets b fuel n (errString e) w2 g2 = connected := by
                simp [handle_error_targets, hge]
              rwa [this] at hmem
            rcases handle_error_handlers_ok_started b fuel (b.nodeD n).id connected
                (handle_error_pre b n (errString e) w2 g2) g2 wa ga (by rw [hh]) h hmem2 with
              ⟨gh, hgh⟩
            refine ⟨gh, ?_⟩
            rw [hw3]
            simpa [World.setState] using hgh
  refine ⟨?_, (hmain h3).1, (hmain h3).2⟩
  simp [trigger, h1, h2, h3]

/-- C4 witness: the routed-failure behavior on the failing-root board with a
wired, succeeding handler. -/
theorem C4_witness :
    (trigger rootFailBoard 20 0 true rootFailWorld none).1 =
      Except.error (InternalNodeError.ExecutionFailed "root") ∧
    (trigger rootFailBoard 20 0 true rootFailWorld none).2.1.stateOf 0 = NodeState.error := by
  have h := C4_theorem rootFailBoard 20 0 true rootFailWorld none (by decide) rfl rfl rfl
  constructor
  · rw [h.1]
    rfl
  · rw [h.1]
    exact h.2.1

/-! Claim C7. -/

/-- C7: every successor popped in the trigger walk starts with a fresh,
initially empty recursion guard (every new `succStart` snapshot is `none`),
whereas everything executed inside `handle_error` runs with the same guard
the original failing call carried, with no reset (every guard snapshot
emitted by `handle_error` extends the entry guard). -/
theorem C7_theorem :
    (∀ (b : Board) (fuel : Nat) (rootId : String) (lf : Nat)
      (stack : List ExecutionTarget) (seen : List Nat) (w : World) (m : Nat) (gm : Guard),
      Event.succStart m gm ∈ (trigger_succ_loop b fuel rootId lf stack seen w).2.trace →
      Event.succStart m gm ∈ w.trace ∨ gm = none)
    ∧ (∀ (b : Board) (fuel n : Nat) (err : String) (w : World) (g : Guard) (ev : Event),
      ev ∈ (handle_error b fuel n err w g).2.1.trace →
      ev ∈ w.trace ∨ ∀ gs, eventGuard ev = some gs → GExt g gs) := by
  constructor
  · intro b fuel rootId lf stack seen w m gm hmem
    rcases trigger_succ_loop_spec b fuel rootId lf stack seen w with ⟨t, ht, ha, -, -⟩
    rw [ht] at hmem
    rcases List.mem_append.mp hmem with h | h
    · exact Or.inl h
    · exact Or.inr (ha m gm h)
  · intro b fuel n err w g ev hmem
    rcases handle_error_spec b fuel n err w g with ⟨t, ht, hem, -, -⟩
    rw [ht] at hmem
    rcases List.mem_append.mp hmem with h | h
    · exact Or.inl h
    · exact Or.inr (fun gs hgs => hem.2 ev h gs hgs)

/-- C7 witness: the fresh-guard conclusion applied to the concrete successor
walk of the failing-successor board. -/
theorem C7_witness :
    Event.succStart 1 none ∈
      (trigger_succ_loop succFailBoard 20 "root" 5
        [{ node := 1, through_pins := [1] }] [] succFailWorld).2.trace ∧
    (Event.succStart 1 none ∈ succFailWorld.trace ∨ (none : Guard) = none) := by
  have hm : Event.succStart 1 none ∈
      (trigger_succ_loop succFailBoard 20 "root" 5
        [{ node := 1, through_pins := [1] }] [] succFailWorld).2.trace := by decide
  exact ⟨hm, C7_theorem.1 succFailBoard 20 "root" 5
    [{ node := 1, through_pins := [1] }] [] succFailWorld 1 none hm⟩

/-! Claim C8. -/

/-- Lemma: `succNodes` distributes over append. -/
theorem succNodes_append (t1 t2 : List Event) :
    succNodes (t1 ++ t2) = succNodes t1 ++ succNodes t2 :=
  List.filterMap_append t1 t2 succNode?

/-- C8: within one trigger's successor walk, each node identity is popped and
executed at most once — the identity-keyed visited set makes the recorded
successor pops pairwise distinct. -/
theorem C8_theorem (b : Board) (fuel n : Nat) (w : World) (g : Guard)
    (hpre : succNodes w.trace = []) :
    (succNodes (trigger b fuel n true w g).2.1.trace).Nodup := by
  rcases hr : trigger_missing_dependencies b fuel fuel n w g with ⟨ok1, w1, g1⟩
  rcases trigger_missing_dependencies_spec b fuel fuel n w g with ⟨t1, ht1, hem1, -, -⟩
  rw [hr] at ht1
  have ht1b : w1.trace = w.trace ++ t1 := ht1
  have hn1 : succNodes t1 = [] := List.filterMap_eq_nil_iff.mpr hem1.1
  cases ok1 with
  | false =>
    rcases hhe : handle_error b fuel n "Failed to trigger missing dependencies"
        (w1.emit (Event.log "Failed to trigger missing dependencies" LogLevel.error)) g1 with
      ⟨hres, w2, g2⟩
    rcases handle_error_spec b fuel n "Failed to trigger missing dependencies"
        (w1.emit (Event.log "Failed to trigger missing dependencies" LogLevel.error)) g1 with
      ⟨t2, ht2, hem2, -, -⟩
    rw [hhe] at ht2
    have ht2b : w2.trace = w.trace ++ t1 ++ [Event.log "Failed to trigger missing dependencies"
        LogLevel.error] ++ t2 := by
      have hx : w2.trace = (w1.emit (Event.log "Failed to trigger missing dependencies"
        LogLevel.error)).trace ++ t2 := ht2
      rw [emit_trace, ht1b] at hx
      simpa using hx
    have hn2 : succNodes t2 = [] := List.filterMap_eq_nil_iff.mpr hem2.1
    have hempty : succNodes w2.trace = [] := by
      rw [ht2b, succNodes_append, succNodes_append, succNodes_append, hpre, hn1, hn2]
      rfl
    cases hres with
    | error e =>
      have : (trigger b fuel n true w g).2.1 = w2 := by simp [trigger, hr, hhe]
      rw [this, hempty]
      exact List.nodup_nil
    | ok u =>
      have : (trigger b fuel n true w g).2.1 = w2 := by simp [trigger, hr, hhe]
      rw [this, hempty]
      exact List.nodup_nil
  | true =>
    rcases hr2 : run_node_logic_only b n w1 g1 with ⟨res, w2, g2⟩
    rcases run_node_logic_only_spec b n w1 g1 with ⟨t2, ht2, hem2, -, -⟩
    rw [hr2] at ht2
    have ht2b : w2.trace = w.trace ++ t1 ++ t2 := by
      have hx : w2.trace = w1.trace ++ t2 := ht2
      rw [ht1b] at hx
      simpa using hx
    have hn2 : succNodes t2 = [] := List.filterMap_eq_nil_iff.mpr hem2.1
    have hempty2 : succNodes w2.trace = [] := by
      rw [ht2b, succNodes_append, succNodes_append, hpre, hn1, hn2]
      rfl
    cases res with
    | error e =>
      rcases hhe : handle_error b fuel n (errString e) w2 g2 with ⟨hres, w3, g3⟩
      rcases handle_error_spec b fuel n (errString e) w2 g2 with ⟨t3, ht3, hem3, -, -⟩
      rw [hhe] at ht3
      have ht3b : w3.trace = w2.trace ++ t3 := ht3
      have hn3 : succNodes t3 = [] := List.filterMap_eq_nil_iff.mpr hem3.1
      have hempty3 : succNodes w3.trace = [] := by
        rw [ht3b, succNodes_append, hempty2, hn3]
        rfl
      cases hres with
      | error e2 =>
        have : (trigger b fuel n true w g).2.1 = w3 := by simp [trigger, hr, hr2, hhe]
        rw [this, hempty3]
        exact List.nodup_nil
      | ok u =>
        have : (trigger b fuel n true w g).2.1 = w3 := by simp [trigger, hr, hr2, hhe]
        rw [this, hempty3]
        exact List.nodup_nil
    | ok u =>
      rcases hw : trigger_succ_loop b fuel (b.nodeD n).id fuel
          (get_connected_exec b w2 fuel n true).reverse [] w2 with ⟨sres, w3⟩
      rcases trigger_succ_loop_spec b fuel (b.nodeD n).id fuel
          (get_connected_exec b w2 fuel n true).reverse [] w2 with ⟨t3, ht3, -, hnd3, -⟩
      rw [hw] at ht3
      have ht3b : w3.trace = w2.trace ++ t3 := ht3
      have hfinal : succNodes w3.trace = succNodes t3 := by
        rw [ht3b, succNodes_append, hempty2]
        rfl
      cases sres with
      | error e =>
        have : (trigger b fuel n true w g).2.1 = w3 := by simp [trigger, hr, hr2, hw]
        rw [this, hfinal]
        exact hnd3
      | ok u2 =>
        have : (trigger b fuel n true w g).2.1 = w3 := by simp [trigger, hr, hr2, hw]
        rw [this, hfinal]
        exact hnd3

/-- C8 witness: the at-most-once statement applied to the concrete
failing-successor board starting from an empty trace. -/
theorem C8_witness :
    succNodes succFailWorld.trace = [] ∧
    (succNodes (trigger succFailBoard 20 0 true succFailWorld none).2.1.trace).Nodup :=
  ⟨rfl, C8_theorem succFailBoard 20 0 succFailWorld none rfl⟩

end FlowLike
